import Mathlib

/-!
Verification of the zagreb distributed key-value store (Go) against its
natural-language specification, via a shallow embedding in Lean 4.

The embedding follows the Go sources:
  * `pkg/expression/expression.go` — the `AttributeValue` variant,
    `GetAttributeValueType`, `StringToAttributeValue`,
    `splitUpdateExpression`, and the update-expression interpreter `Update`;
  * the bbolt storage engine (`pkg/storage/bbolt`) — `generateKeyString`,
    `compareAttributeValues`, the validators, `CreateTable`,
    `DescribeTable`, `Put`, `Get`, `Query`;
  * `pkg/router/router.go` — `AddNode` / `RemoveNode` and the
    CreateTable/DeleteTable fan-out;
  * `cmd/node/main.go` — the bootstrap synchronization loop.

Modelling conventions:
  * Go maps become association lists (`List (String × _)`); a Go map's keys
    are unique, which the assoc-list operations preserve.
  * A bbolt bucket becomes a key-sorted association list ordered by the
    byte-lexicographic order on keys; for valid UTF-8 strings this equals
    the lexicographic order on code points, which is what `keyLT` computes.
  * JSON marshal/unmarshal round-trips are modelled as the identity.
  * Fallible Go code returns `Except String`; a nil-pointer dereference is
    modelled by the distinguished outcome `GoResult.panic`.
  * IEEE-754 double arithmetic (`strconv.ParseFloat`, `+`,
    `strconv.FormatFloat(_, 'f', -1, 64)`) is abstracted as a `FloatModel`
    parameter: the claims settled here do not depend on the numeric values,
    only on the control flow around them.
-/

namespace Zagreb

/-- The `AttributeValue` pointer-per-field struct of `pkg/expression`.
Each Go pointer/slice/map field becomes an `Option`; `[]byte` becomes
`List Nat` (the bytes). Exactly the ten fields of the source, in source
order: S, N, B, SS, NS, BS, M, L, NULL, BOOL. -/
inductive AttributeValue : Type where
  | mk
    (S : Option String)
    (N : Option String)
    (B : Option (List Nat))
    (SS : Option (List String))
    (NS : Option (List String))
    (BS : Option (List (List Nat)))
    (M : Option (List (String × AttributeValue)))
    (L : Option (List AttributeValue))
    (NULL : Option Bool)
    (BOOL : Option Bool)

namespace AttributeValue

def S : AttributeValue → Option String
  | .mk s _ _ _ _ _ _ _ _ _ => s

def N : AttributeValue → Option String
  | .mk _ n _ _ _ _ _ _ _ _ => n

def B : AttributeValue → Option (List Nat)
  | .mk _ _ b _ _ _ _ _ _ _ => b

def SS : AttributeValue → Option (List String)
  | .mk _ _ _ ss _ _ _ _ _ _ => ss

def NS : AttributeValue → Option (List String)
  | .mk _ _ _ _ ns _ _ _ _ _ => ns

def BS : AttributeValue → Option (List (List Nat))
  | .mk _ _ _ _ _ bs _ _ _ _ => bs

def M : AttributeValue → Option (List (String × AttributeValue))
  | .mk _ _ _ _ _ _ m _ _ _ => m

def L : AttributeValue → Option (List AttributeValue)
  | .mk _ _ _ _ _ _ _ l _ _ => l

def NULL : AttributeValue → Option Bool
  | .mk _ _ _ _ _ _ _ _ nu _ => nu

def BOOL : AttributeValue → Option Bool
  | .mk _ _ _ _ _ _ _ _ _ bo => bo

end AttributeValue

/-- Smart constructor for a well-formed `S` value (only the S field set). -/
def avS (s : String) : AttributeValue :=
  .mk (some s) none none none none none none none none none

/-- Smart constructor for a well-formed `N` value. -/
def avN (s : String) : AttributeValue :=
  .mk none (some s) none none none none none none none none

/-- Smart constructor for a well-formed `BOOL` value. -/
def avBOOL (b : Bool) : AttributeValue :=
  .mk none none none none none none none none none (some b)

/-- Smart constructor for a well-formed `NULL` value. -/
def avNULL (b : Bool) : AttributeValue :=
  .mk none none none none none none none none (some b) none

/-- Smart constructor for a well-formed `SS` value. -/
def avSS (l : List String) : AttributeValue :=
  .mk none none none (some l) none none none none none none

/-- `GetAttributeValueType` from `pkg/expression/expression.go`: the first
populated field, in source order, names the type; a nil value is "NULL"
and an all-empty value is "". (The Lean embedding has no nil pointer at
the `*AttributeValue` level, so the nil branch does not arise.) -/
def GetAttributeValueType (v : AttributeValue) : String :=
  if v.S.isSome then "S"
  else if v.N.isSome then "N"
  else if v.B.isSome then "B"
  else if v.SS.isSome then "SS"
  else if v.NS.isSome then "NS"
  else if v.BS.isSome then "BS"
  else if v.M.isSome then "M"
  else if v.L.isSome then "L"
  else if v.NULL.isSome then "NULL"
  else if v.BOOL.isSome then "BOOL"
  else ""

/-- An item: a Go `map[string]*AttributeValue` as an association list. -/
abbrev Item : Type := List (String × AttributeValue)

/-- Go map read `item[name]`. -/
def lookupAttr (item : Item) (name : String) : Option AttributeValue :=
  match item with
  | [] => none
  | (k, v) :: rest => if k = name then some v else lookupAttr rest name

/-- Go map write `item[name] = v` (replace or append; keeps keys unique). -/
def setAttr (item : Item) (name : String) (v : AttributeValue) : Item :=
  match item with
  | [] => [(name, v)]
  | (k, w) :: rest => if k = name then (name, v) :: rest else (k, w) :: setAttr rest name v

/-- Go map delete `delete(item, name)`. -/
def removeAttr (item : Item) (name : String) : Item :=
  match item with
  | [] => []
  | (k, w) :: rest => if k = name then rest else (k, w) :: removeAttr rest name

/-- `KeySchemaElement` from `pkg/types/types.go`. -/
structure KeySchemaElement where
  AttributeName : String
  KeyType : String
deriving DecidableEq

/-- `AttributeDefinition` from `pkg/types/types.go`. -/
structure AttributeDefinition where
  AttributeName : String
  AttributeType : String
deriving DecidableEq

/-- `CreateTableRequest` from `pkg/types/types.go` — also the stored schema. -/
structure CreateTableRequest where
  TableName : String
  KeySchema : List KeySchemaElement
  AttributeDefinitions : List AttributeDefinition

/-- `TableDescription` from `pkg/types/types.go`. -/
structure TableDescription where
  TableName : String
  KeySchema : List KeySchemaElement
  AttributeDefinitions : List AttributeDefinition

/-- The `keyDelimiter` constant of the bbolt engine: `"|"` (0x7C). -/
def keyDelimiter : String := "|"

/-- `strconv.FormatBool`. -/
def formatBool (b : Bool) : String := if b then "true" else "false"

/-- The per-value string conversion inside `generateKeyString` (the
`switch expression.GetAttributeValueType(attrVal)` block): S and N values
verbatim, BOOL via FormatBool, NULL as the literal "NULL", every other
type rejected. The `Option.getD` dereferences are guarded: the type tag
guarantees the corresponding field is populated (see `S_isSome_of_type`). -/
def keyCanonString (v : AttributeValue) : Except String String :=
  if GetAttributeValueType v = "S" then .ok (v.S.getD "")
  else if GetAttributeValueType v = "N" then .ok (v.N.getD "")
  else if GetAttributeValueType v = "BOOL" then .ok (formatBool (v.BOOL.getD false))
  else if GetAttributeValueType v = "NULL" then .ok "NULL"
  else .error ("unsupported attribute type for key: " ++ GetAttributeValueType v)

/-- The loop of `generateKeyString` over the key schema, threading the
`hashKeyVal` and `rangeKeyVal` accumulator strings (Go zero value ""). -/
def genKeyLoop (item : Item) :
    List KeySchemaElement → String → String → Except String (String × String)
  | [], h, r => .ok (h, r)
  | ks :: rest, h, r =>
    match lookupAttr item ks.AttributeName with
    | none =>
      if ks.KeyType = "HASH" then
        .error ("missing key attribute " ++ ks.AttributeName ++ " in item")
      else
        genKeyLoop item rest h r
    | some v =>
      match keyCanonString v with
      | .error e => .error e
      | .ok s =>
        if ks.KeyType = "HASH" then genKeyLoop item rest s r
        else if ks.KeyType = "RANGE" then genKeyLoop item rest h s
        else genKeyLoop item rest h r

/-- `BBoltStorage.generateKeyString`: build the storage key for an item
(or key mapping) from the table's key schema. -/
def generateKeyString (tableDef : CreateTableRequest) (item : Item) :
    Except String String :=
  match genKeyLoop item tableDef.KeySchema "" "" with
  | .error e => .error e
  | .ok (h, r) =>
    if h = "" then .error "hash key not found in item"
    else .ok (if r = "" then h else h ++ keyDelimiter ++ r)

/-- `BBoltStorage.compareAttributeValues`: type tags must match, then S/N
compare the strings, BOOL compares the booleans, NULL is always equal, and
every other type compares unequal. -/
def compareAttributeValues (val1 val2 : AttributeValue) : Bool :=
  if GetAttributeValueType val1 ≠ GetAttributeValueType val2 then false
  else if GetAttributeValueType val1 = "S" then val1.S.getD "" = val2.S.getD ""
  else if GetAttributeValueType val1 = "N" then val1.N.getD "" = val2.N.getD ""
  else if GetAttributeValueType val1 = "BOOL" then val1.BOOL.getD false = val2.BOOL.getD false
  else if GetAttributeValueType val1 = "NULL" then true
  else false

/-! ### The bbolt bucket model

A bucket is a byte-sorted key/value space. Keys here are the strings
produced by `generateKeyString`; for valid UTF-8 the byte-lexicographic
order bbolt uses coincides with the lexicographic order on code points. -/

/-- Lexicographic strict order on character lists (bbolt's key order). -/
def keyLT : List Char → List Char → Bool
  | [], [] => false
  | [], _ :: _ => true
  | _ :: _, [] => false
  | a :: as, b :: bs => if a < b then true else if b < a then false else keyLT as bs

/-- bbolt key order on strings. -/
def strLt (a b : String) : Bool := keyLT a.data b.data

/-- A bbolt bucket: entries sorted ascending by `strLt` on the key. -/
abbrev Bucket : Type := List (String × Item)

/-- Generic Go map read (also used for bbolt `Bucket.Get`). -/
def assocGet {α : Type} (m : List (String × α)) (k : String) : Option α :=
  match m with
  | [] => none
  | (k0, v0) :: rest => if k0 = k then some v0 else assocGet rest k

/-- Generic Go map write (replace or append; keeps keys unique). -/
def assocSet {α : Type} (m : List (String × α)) (k : String) (v : α) :
    List (String × α) :=
  match m with
  | [] => [(k, v)]
  | (k0, v0) :: rest =>
    if k0 = k then (k, v) :: rest else (k0, v0) :: assocSet rest k v

/-- bbolt `Bucket.Put`: sorted insert, replacing an existing entry with the
same key. -/
def bucketPut (b : Bucket) (k : String) (it : Item) : Bucket :=
  match b with
  | [] => [(k, it)]
  | (k0, it0) :: rest =>
    if strLt k k0 then (k, it) :: (k0, it0) :: rest
    else if k = k0 then (k, it) :: rest
    else (k0, it0) :: bucketPut rest k it

/-! ### The node-local storage engine

The engine state is the content of the bbolt file: the `_metadata` bucket
(table name to serialized schema) plus one bucket per table. JSON
serialization is modelled as the identity. -/

structure Engine where
  metadata : List (String × CreateTableRequest)
  buckets : List (String × Bucket)

/-- `BBoltStorage.getTableDef`: read the schema from `_metadata`. -/
def getTableDef (e : Engine) (tableName : String) :
    Except String CreateTableRequest :=
  match assocGet e.metadata tableName with
  | none => .error ("table not found: " ++ tableName)
  | some td => .ok td

/-- `BBoltStorage.CreateTable`: ensure the table bucket exists, store the
schema in `_metadata`, and return a description echoing the request. -/
def createTable (e : Engine) (req : CreateTableRequest) :
    Engine × TableDescription :=
  let buckets :=
    match assocGet e.buckets req.TableName with
    | some _ => e.buckets
    | none => e.buckets ++ [(req.TableName, ([] : Bucket))]
  ({ metadata := assocSet e.metadata req.TableName req, buckets := buckets },
   ⟨req.TableName, req.KeySchema, req.AttributeDefinitions⟩)

/-- `BBoltStorage.DescribeTable`. -/
def describeTable (e : Engine) (tableName : String) :
    Except String TableDescription :=
  match assocGet e.metadata tableName with
  | none => .error ("table not found: " ++ tableName)
  | some td => .ok ⟨td.TableName, td.KeySchema, td.AttributeDefinitions⟩

/-- `BBoltStorage.validatePutRequest`: every key-schema attribute must be
present in the item. -/
def validatePutRequest (td : CreateTableRequest) (item : Item) :
    Except String Unit :=
  match td.KeySchema.find? (fun ks => (lookupAttr item ks.AttributeName).isNone) with
  | some ks => .error ("missing key attribute: " ++ ks.AttributeName)
  | none => .ok ()

/-- The distinct key-attribute names of a schema (the key set of the Go
`keySchema` map built by the validators; later duplicates overwrite). -/
def schemaKeyNames (td : CreateTableRequest) : List String :=
  (td.KeySchema.map (fun ks => ks.AttributeName)).dedup

/-- `BBoltStorage.validateGetRequest` (the same code is also
`validateDeleteRequest` and `validateUpdateRequest`): the key mapping must
have the same number of attributes as the schema names, and each of its
names must be a schema key name. -/
def validateGetRequest (td : CreateTableRequest) (key : Item) :
    Except String Unit :=
  if key.length ≠ (schemaKeyNames td).length then
    .error ("invalid number of key attributes: expected " ++
      toString (schemaKeyNames td).length ++ ", got " ++ toString key.length)
  else
    match key.find? (fun kv => !((schemaKeyNames td).contains kv.1)) with
    | some kv => .error ("invalid key attribute: " ++ kv.1)
    | none => .ok ()

/-- `BBoltStorage.Put`: load the schema, validate, encode the key, write. -/
def putItem (e : Engine) (tableName : String) (item : Item) :
    Except String Engine :=
  match getTableDef e tableName with
  | .error er => .error er
  | .ok td =>
  match validatePutRequest td item with
  | .error er => .error er
  | .ok _ =>
  match assocGet e.buckets tableName with
  | none => .error ("bucket not found: " ++ tableName)
  | some b =>
  match generateKeyString td item with
  | .error er => .error er
  | .ok k =>
    .ok { e with buckets := assocSet e.buckets tableName (bucketPut b k item) }

/-- `BBoltStorage.Get`: load the schema, validate the key mapping, encode,
look up; a missing entry is the empty-result sentinel `none`, not an
error. -/
def getItem (e : Engine) (tableName : String) (key : Item) :
    Except String (Option Item) :=
  match getTableDef e tableName with
  | .error er => .error er
  | .ok td =>
  match validateGetRequest td key with
  | .error er => .error er
  | .ok _ =>
  match assocGet e.buckets tableName with
  | none => .error ("bucket not found: " ++ tableName)
  | some b =>
  match generateKeyString td key with
  | .error er => .error er
  | .ok k =>
  match assocGet b k with
  | none => .ok none
  | some it => .ok (some it)

/-! ### The router (`pkg/router/router.go`)

`Node` is id plus address. A `storage.Storage` RPC client is represented
by the address it was constructed from (`NewNodeClient(node.Addr)`); what
a call on it does is abstracted as a function from the client to an
`Except` outcome. The consistent-hash ring of the `stathat/consistent`
dependency is represented by its member set (`Add` registers a member,
`Remove` deletes it), which is all the router claims depend on. -/

structure RNode where
  ID : String
  Addr : String
deriving DecidableEq

/-- `consistent.Add`: register a ring member (set semantics). -/
def ringAdd (ring : List String) (id : String) : List String :=
  if ring.contains id then ring else ring ++ [id]

/-- `consistent.Remove`: delete a ring member. -/
def ringRemove (ring : List String) (id : String) : List String :=
  ring.filter (fun x => x != id)

/-- Go map `delete`. -/
def assocRemove {α : Type} (m : List (String × α)) (k : String) :
    List (String × α) :=
  m.filter (fun kv => kv.1 != k)

/-- The router's mutable state: the ring, `nodes : id → Node`, and
`nodeClients : id → client` (the client recorded by the address it was
built from). -/
structure RouterState where
  ring : List String
  nodes : List (String × RNode)
  nodeClients : List (String × String)

/-- `NewRouter`: empty ring, empty maps. -/
def NewRouter : RouterState := ⟨[], [], []⟩

/-- `Router.AddNode`: add to the ring, the node map, and the client map
(the client is built from `node.Addr`). -/
def AddNode (r : RouterState) (node : RNode) : RouterState :=
  { ring := ringAdd r.ring node.ID,
    nodes := assocSet r.nodes node.ID node,
    nodeClients := assocSet r.nodeClients node.ID node.Addr }

/-- `Router.RemoveNode`: remove from the ring and both maps. -/
def RemoveNode (r : RouterState) (nodeID : String) : RouterState :=
  { ring := ringRemove r.ring nodeID,
    nodes := assocRemove r.nodes nodeID,
    nodeClients := assocRemove r.nodeClients nodeID }

inductive ROp where
  | add (n : RNode)
  | remove (id : String)

def applyROp (r : RouterState) : ROp → RouterState
  | .add n => AddNode r n
  | .remove id => RemoveNode r id

def applyROps (r : RouterState) (ops : List ROp) : RouterState :=
  ops.foldl applyROp r

/-- The `for _, node := range r.nodes` loop shared by `Router.CreateTable`
and `Router.DeleteTable`, threading the `firstResp` and `firstErr`
accumulators (Go nil = `none`). The third component instruments the loop
with the ids of the nodes whose client was actually called, so that the
fan-out coverage can be stated. -/
def fanoutLoop {R : Type} (clients : List (String × String))
    (call : String → Except String R) (msgPre : String) :
    List RNode → Option R → Option String → List String →
      Option R × Option String × List String
  | [], firstResp, firstErr, called => (firstResp, firstErr, called)
  | node :: rest, firstResp, firstErr, called =>
    match assocGet clients node.ID with
    | none =>
      fanoutLoop clients call msgPre rest firstResp
        (firstErr <|> some ("failed to get client for node " ++ node.ID)) called
    | some client =>
      match call client with
      | .error e =>
        fanoutLoop clients call msgPre rest firstResp
          (firstErr <|> some (msgPre ++ node.ID ++ ": " ++ e)) (called ++ [node.ID])
      | .ok resp =>
        fanoutLoop clients call msgPre rest (firstResp <|> some resp) firstErr
          (called ++ [node.ID])

/-- The shared tail of `Router.CreateTable` / `Router.DeleteTable`: empty
membership is an error before any call; otherwise run the fan-out and
return the first error if any, else the first success, else the
aggregation error. -/
def tableLifecycleFanout {R : Type} (nodes : List RNode)
    (clients : List (String × String)) (call : String → Except String R)
    (msgPre noNodesMsg noSuccessMsg : String) :
    Except String R × List String :=
  if nodes = [] then (.error noNodesMsg, [])
  else
    match fanoutLoop clients call msgPre nodes none none [] with
    | (firstResp, firstErr, called) =>
      match firstErr with
      | some e => (.error e, called)
      | none =>
        match firstResp with
        | some rsp => (.ok rsp, called)
        | none => (.error noSuccessMsg, called)

/-- `Router.CreateTable` with its message strings. -/
def routerCreateTable {R : Type} (nodes : List RNode)
    (clients : List (String × String)) (call : String → Except String R) :
    Except String R × List String :=
  tableLifecycleFanout nodes clients call "failed to create table on node "
    "no nodes in the ring to create table"
    "no successful responses from nodes for CreateTable"

/-- `Router.DeleteTable` with its message strings. -/
def routerDeleteTable {R : Type} (nodes : List RNode)
    (clients : List (String × String)) (call : String → Except String R) :
    Except String R × List String :=
  tableLifecycleFanout nodes clients call "failed to delete table on node "
    "no nodes in the ring to delete table"
    "no successful responses from nodes for DeleteTable"

/-- The errors a fan-out over `nodes` encounters, in iteration order. -/
def fanoutErrs {R : Type} (nodes : List RNode)
    (call : String → Except String R) (msgPre : String) : List String :=
  nodes.filterMap (fun n =>
    match call n.Addr with
    | .error e => some (msgPre ++ n.ID ++ ": " ++ e)
    | .ok _ => none)

/-- The successful responses of a fan-out over `nodes`, in iteration
order. -/
def fanoutResps {R : Type} (nodes : List RNode)
    (call : String → Except String R) : List R :=
  nodes.filterMap (fun n => (call n.Addr).toOption)

/-! ### Go string primitives

The Pos-based `String` functions of the Lean core library do not reduce in
the kernel, so the Go string operations the interpreter uses are modelled
on the character lists underlying the strings. Go operates on bytes; for
valid UTF-8, code-point operations agree with byte operations everywhere
they are used here (ASCII keywords, prefix tests, whitespace splits). -/

/-- `strings.ToUpper`, restricted to ASCII (the results only feed ASCII
keyword comparisons). -/
def goToUpperChar (c : Char) : Char :=
  if 'a' ≤ c ∧ c ≤ 'z' then Char.ofNat (c.toNat - 32) else c

def goToUpper (s : String) : String := ⟨s.data.map goToUpperChar⟩

/-- `strings.HasPrefix` / `bytes.HasPrefix`. -/
def strHasPre (p s : String) : Bool := p.data.isPrefixOf s.data

/-- `strings.HasSuffix`. -/
def strHasSuf (p s : String) : Bool := p.data.isSuffixOf s.data

/-- The loop of `strings.Fields`: split at whitespace runs, no empty
tokens. The accumulator holds the current token reversed. -/
def fieldsAux : List Char → List Char → List String
  | [], cur => if cur = [] then [] else [⟨cur.reverse⟩]
  | c :: rest, cur =>
    if c.isWhitespace then
      if cur = [] then fieldsAux rest []
      else ⟨cur.reverse⟩ :: fieldsAux rest []
    else fieldsAux rest (c :: cur)

/-- `strings.Fields`. -/
def goFields (s : String) : List String := fieldsAux s.data []

/-- The loop of `strings.Split(s, " ")`. -/
def splitSpaceAux : List Char → List Char → List String
  | [], cur => [⟨cur.reverse⟩]
  | c :: rest, cur =>
    if c = ' ' then ⟨cur.reverse⟩ :: splitSpaceAux rest []
    else splitSpaceAux rest (c :: cur)

/-- `strings.Split(s, " ")`. -/
def goSplitSpace (s : String) : List String := splitSpaceAux s.data []

/-- `strings.Join(_, " ")` on character lists. -/
def goJoin : List (List Char) → List Char
  | [] => []
  | [a] => a
  | a :: rest => a ++ ' ' :: goJoin rest

/-- `strings.Join(parts, " ")`. -/
def goJoinSpace (parts : List String) : String :=
  ⟨goJoin (parts.map String.data)⟩

/-- Value of a non-empty decimal digit string. -/
def digitsVal : List Char → Option Nat
  | [] => none
  | [c] => if c.isDigit then some (c.toNat - 48) else none
  | c :: rest =>
    if c.isDigit then
      match digitsVal rest with
      | some n => some ((c.toNat - 48) * 10 ^ rest.length + n)
      | none => none
    else none

/-- Integer parser for the concrete float-model instantiation. -/
def goParseInt (s : String) : Option Int :=
  match s.data with
  | '-' :: rest =>
    match digitsVal rest with
    | some n => some (-(n : Int))
    | none => none
  | l =>
    match digitsVal l with
    | some n => some (n : Int)
    | none => none

/-! ### The update-expression interpreter (`pkg/expression/expression.go`) -/

/-- Outcome of Go code that may return an error or crash on a nil-pointer
dereference. -/
inductive GoResult (α : Type) where
  | ok (val : α)
  | err (msg : String)
  | panic (msg : String)

/-- The IEEE-754 double primitives used by the interpreter
(`strconv.ParseFloat(_, 64)`, `+` on float64, and
`strconv.FormatFloat(_, 'f', -1, 64)`), abstracted over the carrier. -/
structure FloatModel (α : Type) where
  parseFloat : String → Except String α
  formatFloat : α → String
  add : α → α → α

/-- A concrete instantiation of the float primitives for witnesses and
counterexamples: it parses integer strings and formats them back, which
agrees with Go's `strconv.ParseFloat` / `FormatFloat(_, 'f', -1, 64)` on
integer-valued inputs of small magnitude. -/
def intFloatModel : FloatModel Int where
  parseFloat s :=
    match goParseInt s with
    | some n => .ok n
    | none => .error "invalid syntax"
  formatFloat n := toString n
  add a b := a + b

/-- Membership in the `keywords` map of `splitUpdateExpression` after
`strings.ToUpper`. -/
def isUpdateKeyword (w : String) : Bool :=
  goToUpper w = "SET" || goToUpper w = "REMOVE" || goToUpper w = "ADD" ||
    goToUpper w = "DELETE"

/-- The loop of `splitUpdateExpression`, threading the current clause and
the finished clauses. Clauses are kept as token lists: the source
accumulates each clause as a string joined by single spaces and re-splits
it with `strings.Fields` inside `Update`, which yields exactly these
tokens. -/
def splitUpdLoop : List String → List String → List (List String) → List (List String)
  | [], current, clauses =>
    if current ≠ [] then clauses ++ [current] else clauses
  | part :: rest, current, clauses =>
    if isUpdateKeyword part ∧ current ≠ [] then
      splitUpdLoop rest [part] (clauses ++ [current])
    else
      splitUpdLoop rest (current ++ [part]) clauses

/-- `expression.splitUpdateExpression`. -/
def splitUpdateExpression (expression : String) : List (List String) :=
  splitUpdLoop (goFields expression) [] []

/-- `strconv.ParseBool`. -/
def parseBool (s : String) : Except String Bool :=
  if s = "1" ∨ s = "t" ∨ s = "T" ∨ s = "TRUE" ∨ s = "true" ∨ s = "True" then
    .ok true
  else if s = "0" ∨ s = "f" ∨ s = "F" ∨ s = "FALSE" ∨ s = "false" ∨ s = "False" then
    .ok false
  else .error "invalid syntax"

/-- `expression.StringToAttributeValue`: a double-quoted string is an S
literal, then boolean, then float (re-formatted), otherwise S. -/
def StringToAttributeValue {α : Type} (fm : FloatModel α) (s : String) :
    Except String AttributeValue :=
  if strHasPre "\"" s ∧ strHasSuf "\"" s ∧ s.data.length > 1 then
    .ok (avS ⟨(s.data.drop 1).dropLast⟩)
  else
    match parseBool s with
    | .ok b => .ok (avBOOL b)
    | .error _ =>
      match fm.parseFloat s with
      | .ok f => .ok (avN (fm.formatFloat f))
      | .error _ => .ok (avS s)

/-- Smart constructor for a well-formed `NS` value. -/
def avNS (l : List String) : AttributeValue :=
  .mk none none none none (some l) none none none none none

/-- Smart constructor for a well-formed `BS` value. -/
def avBS (l : List (List Nat)) : AttributeValue :=
  .mk none none none none none (some l) none none none none

/-- One clause of `expression.Update` (the body of the `for _, clause`
loop), applied to the current state of the item map. The `*addValue.N`
dereference in the ADD case is unguarded in the source and panics when the
resolved operand is not an N value. -/
def updClause {α : Type} (fm : FloatModel α) (eav : Item) (item : Item)
    (parts : List String) : GoResult Item :=
  match parts with
  | [] => .ok item
  | action0 :: _ =>
    let action := goToUpper action0
    if action = "SET" then
      if parts.length < 4 ∨ parts.getD 2 "" ≠ "=" then
        .err ("invalid SET clause: " ++ goJoinSpace parts)
      else
        let attrName := parts.getD 1 ""
        let attrValueStr := goJoinSpace (parts.drop 3)
        if strHasPre ":" attrValueStr then
          match lookupAttr eav attrValueStr with
          | none => .err ("expression attribute value " ++ attrValueStr ++ " not found")
          | some v => .ok (setAttr item attrName v)
        else
          match StringToAttributeValue fm attrValueStr with
          | .error e => .err ("invalid value in SET clause: " ++ e)
          | .ok v => .ok (setAttr item attrName v)
    else if action = "REMOVE" then
      if parts.length < 2 then .err ("invalid REMOVE clause: " ++ goJoinSpace parts)
      else .ok ((parts.drop 1).foldl (fun it n => removeAttr it n) item)
    else if action = "ADD" then
      if parts.length < 3 then .err ("invalid ADD clause: " ++ goJoinSpace parts)
      else
        let attrName := parts.getD 1 ""
        let addValueStr := goJoinSpace (parts.drop 2)
        let addValueRes : GoResult AttributeValue :=
          if strHasPre ":" addValueStr then
            match lookupAttr eav addValueStr with
            | none => .err ("expression attribute value " ++ addValueStr ++ " not found")
            | some v => .ok v
          else
            match StringToAttributeValue fm addValueStr with
            | .error e => .err ("invalid value in ADD clause: " ++ e)
            | .ok v => .ok v
        match addValueRes with
        | .err e => .err e
        | .panic e => .panic e
        | .ok addValue =>
          match lookupAttr item attrName with
          | none =>
            .err ("attribute " ++ attrName ++
              " is not a number or does not exist for ADD operation")
          | some existingValue =>
            match existingValue.N with
            | none =>
              .err ("attribute " ++ attrName ++
                " is not a number or does not exist for ADD operation")
            | some exN =>
              match fm.parseFloat exN with
              | .error e => .err ("failed to parse existing number for ADD: " ++ e)
              | .ok existingNum =>
                match addValue.N with
                | none => .panic "nil pointer dereference: addValue.N"
                | some addN =>
                  match fm.parseFloat addN with
                  | .error e => .err ("failed to parse add number for ADD: " ++ e)
                  | .ok addNum =>
                    .ok (setAttr item attrName
                      (avN (fm.formatFloat (fm.add existingNum addNum))))
    else if action = "DELETE" then
      if parts.length < 2 then .err ("invalid DELETE clause: " ++ goJoinSpace parts)
      else
        let attrName := parts.getD 1 ""
        if parts.length = 2 then .ok (removeAttr item attrName)
        else
          let deleteValuePlaceholder := parts.getD 2 ""
          match lookupAttr eav deleteValuePlaceholder with
          | none =>
            .err ("expression attribute value " ++ deleteValuePlaceholder ++
              " not found for DELETE operation")
          | some valuesToDelete =>
            match lookupAttr item attrName with
            | none => .ok item
            | some existingAttr =>
              match existingAttr.SS, valuesToDelete.SS with
              | some exSS, some delSS =>
                .ok (setAttr item attrName
                  (avSS (exSS.filter (fun val => !(delSS.contains val)))))
              | _, _ =>
                match existingAttr.NS, valuesToDelete.NS with
                | some exNS, some delNS =>
                  .ok (setAttr item attrName
                    (avNS (exNS.filter (fun val => !(delNS.contains val)))))
                | _, _ =>
                  match existingAttr.BS, valuesToDelete.BS with
                  | some exBS, some delBS =>
                    .ok (setAttr item attrName
                      (avBS (exBS.filter (fun ev => !(delBS.contains ev)))))
                  | _, _ => .ok (removeAttr item attrName)
    else
      .err ("unsupported update action: " ++ action)

/-- The clause loop of `expression.Update`: clauses apply left to right,
threading the item map state; the first error or panic aborts. -/
def updLoop {α : Type} (fm : FloatModel α) (eav : Item) :
    Item → List (List String) → GoResult Item
  | item, [] => .ok item
  | item, c :: cs =>
    match updClause fm eav item c with
    | .ok item2 => updLoop fm eav item2 cs
    | .err e => .err e
    | .panic e => .panic e

/-- `expression.Update` as a function on the contents of the item map: the
value returned is the final content of the (single) map the function
mutates, which is also what it returns at its `return item, nil`. -/
def updateRun {α : Type} (fm : FloatModel α) (item : Item)
    (updateExpression : String) (eav : Item) : GoResult Item :=
  updLoop fm eav item (splitUpdateExpression updateExpression)

/-- `expression.Update` at the memory level. Go maps are references: the
function receives a reference to the caller's map, every `item[k] = v` /
`delete(item, k)` in its body mutates that map in place (the variable
`item` is never rebound), and line 186 returns the same reference. The
heap is the list of allocated item maps; `ref` indexes the caller's map;
the result pairs the post-call heap with the returned reference. -/
def UpdateGo {α : Type} (fm : FloatModel α) (heap : List Item) (ref : Nat)
    (updateExpression : String) (eav : Item) : GoResult (List Item × Nat) :=
  match updateRun fm (heap.getD ref []) updateExpression eav with
  | .ok final => .ok (heap.set ref final, ref)
  | .err e => .err e
  | .panic e => .panic e

/-! ### Node bootstrap synchronization (`cmd/node/main.go`) -/

/-- One page of an (Internal)Scan response. -/
structure ScanPage where
  Items : List Item
  LastEvaluatedKey : Option Item

/-- The source-node selection loop of the bootstrap synchronization: for
each active node other than this node, query the ring owner of the table
again (`aConsistent.Get(tableName)`, a pure value here since the ring does
not change during the loop) and select the node if the lookup succeeded
and returned its id; the Go zero value `router.Node{}` results when no
node matches. -/
def findSourceNode (ringGet : Except String String) (selfID : String)
    (activeNodes : List RNode) : RNode :=
  match activeNodes.find? (fun n =>
    n.ID != selfID &&
      (match ringGet with
       | .ok sourceNodeID => sourceNodeID == n.ID
       | .error _ => false)) with
  | some n => n
  | none => ⟨"", ""⟩

/-- The pagination loop over `sourceClient.InternalScan`: accumulate
`resp.Items`, stop when `LastEvaluatedKey` is absent, break (keeping what
was collected) on error. `fuel` bounds the iteration count, modelling the
finiteness of an actual run. -/
def collectScanPages (scan : Option Item → Except String ScanPage) :
    Nat → Option Item → List Item → List Item
  | 0, _, acc => acc
  | fuel + 1, esk, acc =>
    match scan esk with
    | .error _ => acc
    | .ok page =>
      match page.LastEvaluatedKey with
      | none => acc ++ page.Items
      | some k => collectScanPages scan fuel (some k) (acc ++ page.Items)

/-- Write each synced item via the local engine's Put, logging and
continuing past failures. -/
def putSyncedItems (e : Engine) (tableName : String) : List Item → Engine
  | [] => e
  | item :: rest =>
    match putItem e tableName item with
    | .error _ => putSyncedItems e tableName rest
    | .ok e2 => putSyncedItems e2 tableName rest

/-- The per-table body of the synchronization loop in `main`: skip the
table if the ring lookup failed or this node is not the owner; otherwise
look for a source peer, and if one was found (`sourceNode.ID != ""`) pull
its pages and Put every received item locally. `peerScan addr esk` is the
`InternalScan` of the peer client built for `addr`. -/
def syncTable (e : Engine) (selfID tableName : String)
    (ringGet : Except String String) (activeNodes : List RNode)
    (peerScan : String → Option Item → Except String ScanPage)
    (fuel : Nat) : Engine :=
  match ringGet with
  | .error _ => e
  | .ok ownerNodeID =>
    if ownerNodeID = selfID then
      let sourceNode := findSourceNode ringGet selfID activeNodes
      if sourceNode.ID ≠ "" then
        putSyncedItems e tableName
          (collectScanPages (peerScan sourceNode.Addr) fuel none [])
      else e
    else e

/-! ### Query (`BBoltStorage.Query` and `validateQueryRequest`) -/

/-- The hash-key attribute definition located by `validateQueryRequest`:
the first HASH element of the key schema, then the first attribute
definition with that name. -/
def findHashKeyDef (td : CreateTableRequest) : Option AttributeDefinition :=
  match td.KeySchema.find? (fun ks => ks.KeyType == "HASH") with
  | none => none
  | some ks =>
    td.AttributeDefinitions.find? (fun ad => ad.AttributeName == ks.AttributeName)

/-- `BBoltStorage.validateQueryRequest`. -/
def validateQueryRequest (td : CreateTableRequest) (kce : String)
    (eav : Item) : Except String Unit :=
  let parts := goSplitSpace kce
  if parts.length ≠ 3 ∨ parts.getD 1 "" ≠ "=" then
    .error "invalid KeyConditionExpression format: expected 'attributeName = value'"
  else
    match findHashKeyDef td with
    | none => .error "hash key not found in table definition"
    | some hashKeyDef =>
      if parts.getD 0 "" ≠ hashKeyDef.AttributeName then
        .error ("KeyConditionExpression must use the hash key '" ++
          hashKeyDef.AttributeName ++ "', but got '" ++ parts.getD 0 "" ++ "'")
      else
        match lookupAttr eav (parts.getD 2 "") with
        | none => .error ("expression attribute value not found: " ++ parts.getD 2 "")
        | some attrVal =>
          if GetAttributeValueType attrVal ≠ hashKeyDef.AttributeType then
            .error ("invalid type for hash key '" ++ hashKeyDef.AttributeName ++ "'")
          else .ok ()

/-- `BBoltStorage.Query` over the table's bucket. The cursor walk
`for k, v := c.Seek(seekKey); k != nil && bytes.HasPrefix(k, seekKey);
k, v = c.Next()` becomes, on the key-sorted bucket: drop the entries with
key below `seekKey` (Seek positions at the first key ≥ seekKey), then take
while the key has the prefix; the loop body appends the deserialized item
when its hash attribute is non-nil and compares equal to the queried
value. -/
def queryTable (td : CreateTableRequest) (b : Bucket) (kce : String)
    (eav : Item) : Except String (List Item) :=
  match validateQueryRequest td kce eav with
  | .error e => .error e
  | .ok _ =>
    let parts := goSplitSpace kce
    if parts.length ≠ 3 ∨ parts.getD 1 "" ≠ "=" then
      .error "invalid key condition expression format"
    else
      let hashKeyName := parts.getD 0 ""
      let placeholder := parts.getD 2 ""
      match lookupAttr eav placeholder with
      | none => .error ("expression attribute value not found: " ++ placeholder)
      | some hashKeyValue =>
        match generateKeyString td [(hashKeyName, hashKeyValue)] with
        | .error e => .error ("failed to generate seek key string: " ++ e)
        | .ok seekKeyStr =>
          .ok (((b.dropWhile (fun kv => strLt kv.1 seekKeyStr)).takeWhile
              (fun kv => strHasPre seekKeyStr kv.1)).filterMap
            (fun kv =>
              match lookupAttr kv.2 hashKeyName with
              | some w =>
                if compareAttributeValues w hashKeyValue then some kv.2 else none
              | none => none))

/-- Well-formed attribute value per the data model (§3 of the spec):
exactly one tag populated. -/
def wfAV (v : AttributeValue) : Prop :=
  (∃ s, v = avS s) ∨ (∃ s, v = avN s) ∨
  (∃ b, v = .mk none none (some b) none none none none none none none) ∨
  (∃ l, v = avSS l) ∨ (∃ l, v = avNS l) ∨ (∃ l, v = avBS l) ∨
  (∃ m, v = .mk none none none none none none (some m) none none none) ∨
  (∃ l, v = .mk none none none none none none none (some l) none none) ∨
  (∃ b, v = avNULL b) ∨ (∃ b, v = avBOOL b)

/-- The canonical form of an item's range-key attribute, as a total
observable for stating the range ordering of Query results. -/
def rangeCanonOf (rn : String) (it : Item) : String :=
  match lookupAttr it rn with
  | some r =>
    match keyCanonString r with
    | .ok cr => cr
    | .error _ => ""
  | none => ""

/-- A reachable bucket of a table: every entry was written by Put, so its
key is the encoding of its item, the item passed Put validation, and its
attribute values are well-formed; keys are strictly sorted (bbolt order). -/
def WFBucket (td : CreateTableRequest) (b : Bucket) : Prop :=
  List.Pairwise (fun x y => strLt x.1 y.1 = true) b ∧
  ∀ kv ∈ b, generateKeyString td kv.2 = .ok kv.1 ∧
    validatePutRequest td kv.2 = .ok () ∧
    ∀ a ∈ kv.2, wfAV a.2

/-- `FilterRel P l res` says `res` is exactly the (projected) items of the
entries of `l` satisfying `P`, in the order of `l` — the shape of the
Query-prefix claim. -/
inductive FilterRel (P : String × Item → Prop) : Bucket → List Item → Prop
  | nil : FilterRel P [] []
  | keep {kv : String × Item} {l : Bucket} {res : List Item} :
      P kv → FilterRel P l res → FilterRel P (kv :: l) (kv.2 :: res)
  | drop {kv : String × Item} {l : Bucket} {res : List Item} :
      ¬ P kv → FilterRel P l res → FilterRel P (kv :: l) res

/-! ### Supporting lemmas -/

theorem assocGet_set_self {α : Type} (m : List (String × α)) (k : String) (v : α) :
    assocGet (assocSet m k v) k = some v := by
  induction m with
  | nil => simp [assocSet, assocGet]
  | cons kv rest ih =>
    obtain ⟨k0, v0⟩ := kv
    by_cases h : k0 = k <;> simp [assocSet, assocGet, h, ih]

theorem validateGetRequest_ok_iff (td : CreateTableRequest) (key : Item)
    (hnd : (key.map Prod.fst).Nodup) :
    validateGetRequest td key = .ok () ↔
      (key.map Prod.fst).Perm (schemaKeyNames td) := by
  have hndn : (schemaKeyNames td).Nodup := List.nodup_dedup _
  constructor
  · intro hok
    unfold validateGetRequest at hok
    by_cases hlen : key.length = (schemaKeyNames td).length
    · rw [if_neg (by simp [hlen])] at hok
      have hfind : key.find? (fun kv => !((schemaKeyNames td).contains kv.1)) = none := by
        rcases hf : key.find? (fun kv => !((schemaKeyNames td).contains kv.1)) with _ | kv
        · exact hf
        · rw [hf] at hok; cases hok
      have hsub : (key.map Prod.fst) ⊆ schemaKeyNames td := by
        intro n hn
        obtain ⟨kv, hkv, hfst⟩ := List.mem_map.mp hn
        have hc := List.find?_eq_none.mp hfind kv hkv
        simp only [Bool.not_eq_true', Bool.not_eq_false] at hc
        rw [← hfst]
        exact List.mem_of_elem_eq_true hc
      refine (hnd.subperm hsub).perm_of_length_le ?_
      simp [hlen]
    · rw [if_pos (by simpa using hlen)] at hok
      cases hok
  · intro hperm
    have hlen : key.length = (schemaKeyNames td).length := by
      simpa using hperm.length_eq
    unfold validateGetRequest
    rw [if_neg (by simp [hlen])]
    have hfind : key.find? (fun kv => !((schemaKeyNames td).contains kv.1)) = none := by
      rw [List.find?_eq_none]
      intro kv hkv
      have hm : kv.1 ∈ schemaKeyNames td := by
        refine hperm.subset ?_
        exact List.mem_map.mpr ⟨kv, hkv, rfl⟩
      simpa using hm
    rw [hfind]

/-! ### Key-order lemmas for the Query prefix scan -/

theorem keyLT_irrefl : ∀ l : List Char, keyLT l l = false
  | [] => rfl
  | a :: as => by simp [keyLT, lt_irrefl, keyLT_irrefl as]

theorem keyLT_trans : ∀ a b c : List Char,
    keyLT a b = true → keyLT b c = true → keyLT a c = true := by
  intro a
  induction a with
  | nil =>
    intro b c h1 h2
    cases b with
    | nil => cases h1
    | cons y ys =>
      cases c with
      | nil => cases h2
      | cons z zs => rfl
  | cons x xs ih =>
    intro b c h1 h2
    cases b with
    | nil => cases h1
    | cons y ys =>
      cases c with
      | nil => cases h2
      | cons z zs =>
        by_cases hxy : x < y
        · by_cases hyz : y < z
          · simp [keyLT, lt_trans hxy hyz]
          · by_cases hzy : z < y
            · simp [keyLT, hyz, hzy] at h2
            · have hyze : y = z := le_antisymm (not_lt.mp hzy) (not_lt.mp hyz)
              subst hyze
              simp [keyLT, hxy]
        · by_cases hyx : y < x
          · simp [keyLT, hxy, hyx] at h1
          · have hxye : x = y := le_antisymm (not_lt.mp hyx) (not_lt.mp hxy)
            subst hxye
            simp [keyLT, lt_irrefl] at h1
            by_cases hyz : x < z
            · simp [keyLT, hyz]
            · by_cases hzy : z < x
              · simp [keyLT, hyz, hzy] at h2
              · have hxze : x = z := le_antisymm (not_lt.mp hzy) (not_lt.mp hyz)
                subst hxze
                simp [keyLT, lt_irrefl] at h2 ⊢
                exact ih ys zs h1 h2

theorem keyLT_append_self : ∀ p t : List Char, keyLT (p ++ t) p = false := by
  intro p
  induction p with
  | nil =>
    intro t
    cases t <;> rfl
  | cons a as ih =>
    intro t
    simp [keyLT, lt_irrefl, ih t]

theorem keyLT_gt_of_ge_not_pre : ∀ p k : List Char,
    keyLT k p = false → p.isPrefixOf k = false →
    ∀ t, keyLT (p ++ t) k = true := by
  intro p
  induction p with
  | nil =>
    intro k h1 h2 t
    simp [List.isPrefixOf] at h2
  | cons a as ih =>
    intro k h1 h2 t
    cases k with
    | nil => simp [keyLT] at h1
    | cons b bs =>
      by_cases hba : b < a
      · simp [keyLT, hba] at h1
      · by_cases hab : a < b
        · simp [keyLT, hab]
        · have habe : a = b := le_antisymm (not_lt.mp hba) (not_lt.mp hab)
          subst habe
          simp [keyLT, lt_irrefl] at h1 ⊢
          simp [List.isPrefixOf] at h2
          exact ih bs h1 h2 t

theorem strLt_irrefl (a : String) : strLt a a = false := keyLT_irrefl a.data

theorem strLt_trans {a b c : String} (h1 : strLt a b = true)
    (h2 : strLt b c = true) : strLt a c = true :=
  keyLT_trans a.data b.data c.data h1 h2

/-- A key with prefix `p` is not below `p`. -/
theorem strLt_of_pre_false {p k : String} (h : strHasPre p k = true) :
    strLt k p = false := by
  obtain ⟨t, ht⟩ := (List.isPrefixOf_iff_prefix.mp h)
  unfold strLt
  rw [← ht]
  exact keyLT_append_self p.data t

/-- Past the prefix region: a key at-or-above `p` that lacks the prefix is
above every key that has it. -/
theorem strLt_pre_lt_of_not_pre {p k2 k3 : String}
    (hge : strLt k2 p = false) (hnp : strHasPre p k2 = false)
    (hp3 : strHasPre p k3 = true) : strLt k3 k2 = true := by
  obtain ⟨t, ht⟩ := (List.isPrefixOf_iff_prefix.mp hp3)
  unfold strLt
  rw [← ht]
  exact keyLT_gt_of_ge_not_pre p.data k2.data hge hnp t

theorem takeWhile_eq_filter_sorted (p : String) :
    ∀ l : Bucket, List.Pairwise (fun x y => strLt x.1 y.1 = true) l →
      (∀ kv ∈ l, strLt kv.1 p = false) →
      l.takeWhile (fun kv => strHasPre p kv.1) =
        l.filter (fun kv => strHasPre p kv.1) := by
  intro l
  induction l with
  | nil => intro _ _; rfl
  | cons kv rest ih =>
    intro hsort hge
    obtain ⟨hhead, hrest⟩ := List.pairwise_cons.mp hsort
    rcases hpre : strHasPre p kv.1 with _ | _
    · have hnil : rest.filter (fun kv => strHasPre p kv.1) = [] := by
        rw [List.filter_eq_nil_iff]
        intro y hy hyp
        have hlt1 : strLt y.1 kv.1 = true :=
          strLt_pre_lt_of_not_pre (hge kv (List.mem_cons_self _ _)) hpre hyp
        have hlt2 : strLt kv.1 y.1 = true := hhead y hy
        have hcon : strLt kv.1 kv.1 = true := strLt_trans hlt2 hlt1
        rw [strLt_irrefl] at hcon
        cases hcon
      simp [List.takeWhile_cons, List.filter_cons, hpre, hnil]
    · simp [List.takeWhile_cons, List.filter_cons, hpre,
        ih hrest (fun y hy => hge y (List.mem_cons_of_mem _ hy))]

theorem seekScan_eq_filter (p : String) :
    ∀ l : Bucket, List.Pairwise (fun x y => strLt x.1 y.1 = true) l →
      (l.dropWhile (fun kv => strLt kv.1 p)).takeWhile
          (fun kv => strHasPre p kv.1) =
        l.filter (fun kv => strHasPre p kv.1) := by
  intro l
  induction l with
  | nil => intro _; rfl
  | cons kv rest ih =>
    intro hsort
    obtain ⟨hhead, hrest⟩ := List.pairwise_cons.mp hsort
    rcases hlt : strLt kv.1 p with _ | _
    · have hall : ∀ y ∈ kv :: rest, strLt y.1 p = false := by
        intro y hy
        rcases List.mem_cons.mp hy with rfl | hy2
        · exact hlt
        · rcases h2 : strLt y.1 p with _ | _
          · rfl
          · have h3 : strLt kv.1 p = true := strLt_trans (hhead y hy2) h2
            rw [hlt] at h3
            cases h3
      have hfull := takeWhile_eq_filter_sorted p (kv :: rest) hsort hall
      simpa [List.dropWhile_cons, hlt] using hfull
    · have hnp : strHasPre p kv.1 = false := by
        rcases h2 : strHasPre p kv.1 with _ | _
        · rfl
        · have hge := strLt_of_pre_false h2
          rw [hlt] at hge
          cases hge
      simp [List.dropWhile_cons, hlt, ih hrest, List.filter_cons, hnp]

theorem keyLT_append_left : ∀ a x y : List Char,
    keyLT (a ++ x) (a ++ y) = keyLT x y := by
  intro a x y
  induction a with
  | nil => rfl
  | cons c cs ih => simp [keyLT, lt_irrefl, ih]

theorem strHasPre_of_data (p k : String) (t : List Char)
    (h : k.data = p.data ++ t) : strHasPre p k = true := by
  unfold strHasPre
  rw [h]
  exact List.isPrefixOf_iff_prefix.mpr (List.prefix_append _ _)

theorem strHasPre_self (p : String) : strHasPre p p = true :=
  strHasPre_of_data p p [] (by simp)

theorem lookupAttr_mem : ∀ (it : Item) (n : String) (w : AttributeValue),
    lookupAttr it n = some w → (n, w) ∈ it := by
  intro it n w
  induction it with
  | nil => intro h; cases h
  | cons kv rest ih =>
    obtain ⟨k0, v0⟩ := kv
    intro h
    rw [lookupAttr] at h
    by_cases hk : k0 = n
    · rw [if_pos hk] at h
      cases h
      subst hk
      exact List.mem_cons_self _ _
    · rw [if_neg hk] at h
      exact List.mem_cons_of_mem _ (ih h)

theorem genKey_single_shape (name : String) (ads : List AttributeDefinition)
    (hn : String) (it : Item) (k : String)
    (h : generateKeyString ⟨name, [⟨hn, "HASH"⟩], ads⟩ it = .ok k) :
    ∃ w, lookupAttr it hn = some w ∧ keyCanonString w = .ok k ∧ k ≠ "" := by
  rcases hlk : lookupAttr it hn with _ | w
  · simp [generateKeyString, genKeyLoop, hlk] at h
  · rcases hc : keyCanonString w with e | cw
    · simp [generateKeyString, genKeyLoop, hlk, hc] at h
    · by_cases hcw : cw = ""
      · subst hcw
        simp [generateKeyString, genKeyLoop, hlk, hc] at h
      · have hkey : generateKeyString ⟨name, [⟨hn, "HASH"⟩], ads⟩ it = .ok cw := by
          simp [generateKeyString, genKeyLoop, hlk, hc, hcw]
        rw [h] at hkey
        have hke : k = cw := Except.ok.inj hkey
        subst hke
        exact ⟨w, rfl, hc, hcw⟩

theorem genKey_composite_shape (name : String) (ads : List AttributeDefinition)
    (hn rn : String) (it : Item) (k : String)
    (h : generateKeyString ⟨name, [⟨hn, "HASH"⟩, ⟨rn, "RANGE"⟩], ads⟩ it = .ok k) :
    ∃ w cw, lookupAttr it hn = some w ∧ keyCanonString w = .ok cw ∧ cw ≠ "" ∧
      ((k = cw ∧ rangeCanonOf rn it = "") ∨
       (rangeCanonOf rn it ≠ "" ∧
         k.data = cw.data ++ '|' :: (rangeCanonOf rn it).data)) := by
  rcases hlk : lookupAttr it hn with _ | w
  · simp [generateKeyString, genKeyLoop, hlk] at h
  · rcases hc : keyCanonString w with e | cw
    · simp [generateKeyString, genKeyLoop, hlk, hc] at h
    · rcases hrk : lookupAttr it rn with _ | r
      · by_cases hcw : cw = ""
        · subst hcw
          simp [generateKeyString, genKeyLoop, hlk, hc, hrk] at h
        · have hkey : generateKeyString ⟨name, [⟨hn, "HASH"⟩, ⟨rn, "RANGE"⟩], ads⟩ it =
              .ok cw := by
            simp [generateKeyString, genKeyLoop, hlk, hc, hrk, hcw]
          rw [h] at hkey
          have hke : k = cw := Except.ok.inj hkey
          refine ⟨w, cw, rfl, hc, hcw, Or.inl ⟨hke, ?_⟩⟩
          simp [rangeCanonOf, hrk]
      · rcases hcr : keyCanonString r with e2 | cr
        · simp [generateKeyString, genKeyLoop, hlk, hc, hrk, hcr] at h
        · by_cases hcw : cw = ""
          · subst hcw
            simp [generateKeyString, genKeyLoop, hlk, hc, hrk, hcr] at h
          · have hrc : rangeCanonOf rn it = cr := by
              simp [rangeCanonOf, hrk, hcr]
            by_cases hcre : cr = ""
            · subst hcre
              have hkey : generateKeyString
                  ⟨name, [⟨hn, "HASH"⟩, ⟨rn, "RANGE"⟩], ads⟩ it = .ok cw := by
                simp [generateKeyString, genKeyLoop, hlk, hc, hrk, hcr, hcw]
              rw [h] at hkey
              exact ⟨w, cw, rfl, hc, hcw, Or.inl ⟨Except.ok.inj hkey, hrc⟩⟩
            · have hkey : generateKeyString
                  ⟨name, [⟨hn, "HASH"⟩, ⟨rn, "RANGE"⟩], ads⟩ it =
                  .ok (cw ++ keyDelimiter ++ cr) := by
                simp [generateKeyString, genKeyLoop, hlk, hc, hrk, hcr, hcw, hcre]
              rw [h] at hkey
              have hke : k = cw ++ keyDelimiter ++ cr := Except.ok.inj hkey
              refine ⟨w, cw, rfl, hc, hcw, Or.inr ⟨by rw [hrc]; exact hcre, ?_⟩⟩
              rw [hke, hrc]
              simp [keyDelimiter]

theorem compare_iff_eq_of_wf (w v : AttributeValue) (hw : wfAV w) (hv : wfAV v)
    (ht : GetAttributeValueType v = "S" ∨ GetAttributeValueType v = "N") :
    (compareAttributeValues w v = true ↔ w = v) := by
  rcases hv with ⟨s, rfl⟩ | ⟨s, rfl⟩ | ⟨b, rfl⟩ | ⟨l, rfl⟩ | ⟨l, rfl⟩ | ⟨l, rfl⟩ |
    ⟨m, rfl⟩ | ⟨l, rfl⟩ | ⟨b, rfl⟩ | ⟨b, rfl⟩
  case inl =>
    rcases hw with ⟨s2, rfl⟩ | ⟨s2, rfl⟩ | ⟨b2, rfl⟩ | ⟨l2, rfl⟩ | ⟨l2, rfl⟩ |
      ⟨l2, rfl⟩ | ⟨m2, rfl⟩ | ⟨l2, rfl⟩ | ⟨b2, rfl⟩ | ⟨b2, rfl⟩ <;>
      simp [compareAttributeValues, GetAttributeValueType, avS, avN, avSS, avNS,
        avBS, avNULL, avBOOL, AttributeValue.S, AttributeValue.N, AttributeValue.B,
        AttributeValue.SS, AttributeValue.NS, AttributeValue.BS, AttributeValue.M,
        AttributeValue.L, AttributeValue.NULL, AttributeValue.BOOL]
  case inr.inl =>
    rcases hw with ⟨s2, rfl⟩ | ⟨s2, rfl⟩ | ⟨b2, rfl⟩ | ⟨l2, rfl⟩ | ⟨l2, rfl⟩ |
      ⟨l2, rfl⟩ | ⟨m2, rfl⟩ | ⟨l2, rfl⟩ | ⟨b2, rfl⟩ | ⟨b2, rfl⟩ <;>
      simp [compareAttributeValues, GetAttributeValueType, avS, avN, avSS, avNS,
        avBS, avNULL, avBOOL, AttributeValue.S, AttributeValue.N, AttributeValue.B,
        AttributeValue.SS, AttributeValue.NS, AttributeValue.BS, AttributeValue.M,
        AttributeValue.L, AttributeValue.NULL, AttributeValue.BOOL]
  all_goals
    exfalso
    simp [GetAttributeValueType, avS, avN, avSS, avNS, avBS, avNULL, avBOOL,
      AttributeValue.S, AttributeValue.N, AttributeValue.B, AttributeValue.SS,
      AttributeValue.NS, AttributeValue.BS, AttributeValue.M, AttributeValue.L,
      AttributeValue.NULL, AttributeValue.BOOL] at ht

theorem FilterRel_of_pointwise (P : String × Item → Prop)
    (F : String × Item → Option Item) :
    ∀ l : Bucket,
      (∀ kv ∈ l, (∀ it, F kv = some it → it = kv.2) ∧
        ((F kv).isSome = true ↔ P kv)) →
      FilterRel P l (l.filterMap F) := by
  intro l
  induction l with
  | nil => intro _; exact FilterRel.nil
  | cons kv rest ih =>
    intro h
    obtain ⟨hval, hiff⟩ := h kv (List.mem_cons_self _ _)
    have htail := ih fun y hy => h y (List.mem_cons_of_mem _ hy)
    rcases hF : F kv with _ | it
    · have hnp : ¬ P kv := by
        rw [← hiff, hF]
        simp
      rw [List.filterMap_cons_none hF]
      exact FilterRel.drop hnp htail
    · have hp : P kv := hiff.mp (by rw [hF]; rfl)
      have hit : it = kv.2 := hval it hF
      rw [List.filterMap_cons_some hF, hit]
      exact FilterRel.keep hp htail

theorem pairwise_filterMap_mem {β : Type}
    (R : String × Item → String × Item → Prop) (Q : β → β → Prop)
    (F : String × Item → Option β) :
    ∀ l : Bucket, List.Pairwise R l →
      (∀ a ∈ l, ∀ b ∈ l, ∀ x y, R a b → F a = some x → F b = some y → Q x y) →
      List.Pairwise Q (l.filterMap F) := by
  intro l
  induction l with
  | nil => intro _ _; exact List.Pairwise.nil
  | cons kv rest ih =>
    intro hp h
    obtain ⟨hhead, hrest⟩ := List.pairwise_cons.mp hp
    have htail := ih hrest fun a ha b hb x y hr hfa hfb =>
      h a (List.mem_cons_of_mem _ ha) b (List.mem_cons_of_mem _ hb) x y hr hfa hfb
    rcases hF : F kv with _ | x
    · rw [List.filterMap_cons_none hF]
      exact htail
    · rw [List.filterMap_cons_some hF]
      refine List.Pairwise.cons ?_ htail
      intro y hy
      obtain ⟨b, hb, hfb⟩ := List.mem_filterMap.mp hy
      exact h kv (List.mem_cons_self _ _) b (List.mem_cons_of_mem _ hb) x y
        (hhead b hb) hF hfb

theorem strLt_empty_left (r : String) (h : r ≠ "") : strLt "" r = true := by
  unfold strLt
  rcases hd : r.data with _ | ⟨c, cs⟩
  · exfalso
    apply h
    have hre : r = ⟨r.data⟩ := rfl
    rw [hre, hd]
  · rfl

/-! ### Claim theorems: key codec and table catalog -/

/-- C2 (counterexample): for the composite-key table `(H:S HASH, R:S RANGE)`
and the key mapping `{H: S"x", R: S""}`, the range-key value is present, so
the claim requires the encoded key `canon(h) ∥ 0x7C ∥ canon(r) = "x|"`; the
code instead treats the empty canonical range string as absent and encodes
`"x"`. -/
theorem C2_counterexample :
    generateKeyString ⟨"T", [⟨"H", "HASH"⟩, ⟨"R", "RANGE"⟩], [⟨"H", "S"⟩, ⟨"R", "S"⟩]⟩
        [("H", avS "x"), ("R", avS "")] = .ok "x" ∧
    ¬ (generateKeyString ⟨"T", [⟨"H", "HASH"⟩, ⟨"R", "RANGE"⟩], [⟨"H", "S"⟩, ⟨"R", "S"⟩]⟩
        [("H", avS "x"), ("R", avS "")] = .ok ("x" ++ keyDelimiter ++ "")) := by
  constructor
  · rfl
  · intro h
    rw [show generateKeyString ⟨"T", [⟨"H", "HASH"⟩, ⟨"R", "RANGE"⟩], [⟨"H", "S"⟩, ⟨"R", "S"⟩]⟩
        [("H", avS "x"), ("R", avS "")] = .ok "x" from rfl] at h
    simp [keyDelimiter] at h

/-- C2 (amended): over a hash-only schema `[(hn, HASH)]` or a composite
schema `[(hn, HASH), (rn, RANGE)]`, the encoded key is `canon(h)` when no
range-key value with non-empty canonical form is present, and
`canon(h) ∥ "|" ∥ canon(r)` when a range-key value with non-empty canonical
form is present; a hash value whose canonical form is empty is rejected, a
missing hash attribute is rejected, and values of types other than
S/N/BOOL/NULL are rejected at key positions; `canon` maps S and N values
verbatim, BOOL to "true"/"false" and NULL to "NULL". -/
theorem C2_key_encoding_amended
    (name hn rn : String) (ads : List AttributeDefinition) (item : Item) :
    (∀ h ch, lookupAttr item hn = some h → keyCanonString h = .ok ch → ch ≠ "" →
      generateKeyString ⟨name, [⟨hn, "HASH"⟩], ads⟩ item = .ok ch ∧
      (lookupAttr item rn = none →
        generateKeyString ⟨name, [⟨hn, "HASH"⟩, ⟨rn, "RANGE"⟩], ads⟩ item = .ok ch) ∧
      (∀ r cr, lookupAttr item rn = some r → keyCanonString r = .ok cr →
        generateKeyString ⟨name, [⟨hn, "HASH"⟩, ⟨rn, "RANGE"⟩], ads⟩ item =
          .ok (if cr = "" then ch else ch ++ keyDelimiter ++ cr)) ∧
      (∀ r e, lookupAttr item rn = some r → keyCanonString r = .error e →
        generateKeyString ⟨name, [⟨hn, "HASH"⟩, ⟨rn, "RANGE"⟩], ads⟩ item = .error e)) ∧
    (∀ h e, lookupAttr item hn = some h → keyCanonString h = .error e →
      generateKeyString ⟨name, [⟨hn, "HASH"⟩], ads⟩ item = .error e ∧
      generateKeyString ⟨name, [⟨hn, "HASH"⟩, ⟨rn, "RANGE"⟩], ads⟩ item = .error e) ∧
    (∀ h, lookupAttr item hn = some h → keyCanonString h = .ok "" →
      generateKeyString ⟨name, [⟨hn, "HASH"⟩], ads⟩ item =
        .error "hash key not found in item") ∧
    (lookupAttr item hn = none →
      generateKeyString ⟨name, [⟨hn, "HASH"⟩], ads⟩ item =
        .error ("missing key attribute " ++ hn ++ " in item")) ∧
    (∀ s, keyCanonString (avS s) = .ok s) ∧
    (∀ s, keyCanonString (avN s) = .ok s) ∧
    (∀ b, keyCanonString (avBOOL b) = .ok (formatBool b)) ∧
    (∀ b, keyCanonString (avNULL b) = .ok "NULL") ∧
    (∀ v, GetAttributeValueType v = "B" ∨ GetAttributeValueType v = "SS" ∨
          GetAttributeValueType v = "NS" ∨ GetAttributeValueType v = "BS" ∨
          GetAttributeValueType v = "M" ∨ GetAttributeValueType v = "L" →
      keyCanonString v =
        .error ("unsupported attribute type for key: " ++ GetAttributeValueType v)) := by
  refine ⟨?_, ?_, ?_, ?_, ?_, ?_, ?_, ?_, ?_⟩
  · intro h ch hlk hc hch
    refine ⟨?_, ?_, ?_, ?_⟩
    · simp [generateKeyString, genKeyLoop, hlk, hc, hch]
    · intro hrn
      simp [generateKeyString, genKeyLoop, hlk, hc, hrn, hch]
    · intro r cr hrn hcr
      simp [generateKeyString, genKeyLoop, hlk, hc, hrn, hcr, hch]
    · intro r e hrn hcr
      simp [generateKeyString, genKeyLoop, hlk, hc, hrn, hcr]
  · intro h e hlk hc
    constructor <;> simp [generateKeyString, genKeyLoop, hlk, hc]
  · intro h hlk hc
    simp [generateKeyString, genKeyLoop, hlk, hc]
  · intro hlk
    simp [generateKeyString, genKeyLoop, hlk]
  · intro s; rfl
  · intro s; rfl
  · intro b; rfl
  · intro b; rfl
  · intro v hv
    rcases hv with h | h | h | h | h | h <;> simp [keyCanonString, h]

/-- C2 (witness): the amended theorem at the composite schema
`(H HASH, R RANGE)` and mapping `{H: S"a", R: N"7"}` yields the key
`"a" ++ "|" ++ "7"`. -/
theorem C2_key_encoding_witness :
    generateKeyString ⟨"T", [⟨"H", "HASH"⟩, ⟨"R", "RANGE"⟩], []⟩
        [("H", avS "a"), ("R", avN "7")] = .ok ("a" ++ keyDelimiter ++ "7") := by
  have h := ((C2_key_encoding_amended "T" "H" "R" [] [("H", avS "a"), ("R", avN "7")]).1
      (avS "a") "a" (by rfl) (by rfl) (by decide)).2.2.1
      (avN "7") "7" (by rfl) (by rfl)
  simpa using h

/-- C9: after `CreateTable(S)`, the response echoes the schema `S`, and
`DescribeTable` on `S.TableName` returns exactly the schema `S`. -/
theorem C9_schema_roundtrip (e : Engine) (S : CreateTableRequest) :
    (createTable e S).2 = ⟨S.TableName, S.KeySchema, S.AttributeDefinitions⟩ ∧
    describeTable (createTable e S).1 S.TableName =
      .ok ⟨S.TableName, S.KeySchema, S.AttributeDefinitions⟩ := by
  refine ⟨rfl, ?_⟩
  simp [describeTable, createTable, assocGet_set_self]

/-- C10: the composite-key encoding is not injective: the items
`{H: "a", R: "b|c"}` and `{H: "a|b", R: "c"}` have different primary keys
but encode to the same stored key `"a|b|c"`, and after putting both only
one entry remains — the second Put silently overwrote the first. -/
theorem C10_key_collision :
    generateKeyString ⟨"T", [⟨"H", "HASH"⟩, ⟨"R", "RANGE"⟩], [⟨"H", "S"⟩, ⟨"R", "S"⟩]⟩
        [("H", avS "a"), ("R", avS "b|c")] = .ok "a|b|c" ∧
    generateKeyString ⟨"T", [⟨"H", "HASH"⟩, ⟨"R", "RANGE"⟩], [⟨"H", "S"⟩, ⟨"R", "S"⟩]⟩
        [("H", avS "a|b"), ("R", avS "c")] = .ok "a|b|c" ∧
    lookupAttr [("H", avS "a"), ("R", avS "b|c")] "H" ≠
      lookupAttr [("H", avS "a|b"), ("R", avS "c")] "H" ∧
    ((putItem
        (createTable ⟨[], []⟩
          ⟨"T", [⟨"H", "HASH"⟩, ⟨"R", "RANGE"⟩], [⟨"H", "S"⟩, ⟨"R", "S"⟩]⟩).1
        "T" [("H", avS "a"), ("R", avS "b|c")]).bind
      (fun e2 => putItem e2 "T" [("H", avS "a|b"), ("R", avS "c")])).map
        (fun e3 => assocGet e3.buckets "T") =
      .ok (some [("a|b|c", [("H", avS "a|b"), ("R", avS "c")])]) := by
  refine ⟨rfl, rfl, ?_, rfl⟩
  intro hcontra
  simp [lookupAttr, avS] at hcontra

/-- C5: Get validation — when the key mapping's attribute names are not
exactly the schema's key names (same count, same names), `Get` fails and
returns no item; when they are and the encoded key has no stored entry,
`Get` returns the empty-result sentinel with no error. -/
theorem C5_get_validation (e : Engine) (tableName : String)
    (td : CreateTableRequest) (key : Item)
    (htd : assocGet e.metadata tableName = some td)
    (hnd : (key.map Prod.fst).Nodup) :
    (¬ (key.map Prod.fst).Perm (schemaKeyNames td) →
      ∃ msg, getItem e tableName key = .error msg) ∧
    ((key.map Prod.fst).Perm (schemaKeyNames td) →
      ∀ b k, assocGet e.buckets tableName = some b →
        generateKeyString td key = .ok k →
        assocGet b k = none →
        getItem e tableName key = .ok none) := by
  constructor
  · intro hnp
    have hval : validateGetRequest td key ≠ .ok () := by
      intro hok
      exact hnp ((validateGetRequest_ok_iff td key hnd).mp hok)
    rcases hv : validateGetRequest td key with msg | u
    · refine ⟨msg, ?_⟩
      simp [getItem, getTableDef, htd, hv]
    · cases u; exact absurd hv hval
  · intro hp b k hb hk hget
    have hval : validateGetRequest td key = .ok () :=
      (validateGetRequest_ok_iff td key hnd).mpr hp
    simp [getItem, getTableDef, htd, hval, hb, hk, hget]

theorem keys_assocSet {α : Type} (m : List (String × α)) (k : String) (v : α)
    (id : String) :
    id ∈ (assocSet m k v).map Prod.fst ↔ id = k ∨ id ∈ m.map Prod.fst := by
  induction m with
  | nil => simp [assocSet]
  | cons kv rest ih =>
    obtain ⟨k0, v0⟩ := kv
    by_cases h : k0 = k
    · subst h
      simp [assocSet]
      try tauto
    · simp [assocSet, h, ih]
      tauto

theorem keys_assocRemove {α : Type} (m : List (String × α)) (k id : String) :
    id ∈ (assocRemove m k).map Prod.fst ↔ id ≠ k ∧ id ∈ m.map Prod.fst := by
  simp only [assocRemove, List.mem_map, List.mem_filter, bne_iff_ne]
  constructor
  · rintro ⟨kv, ⟨hm, hne⟩, hfst⟩
    exact ⟨hfst ▸ hne, ⟨kv, hm, hfst⟩⟩
  · rintro ⟨hne, ⟨kv, hm, hfst⟩⟩
    exact ⟨kv, ⟨hm, hfst ▸ hne⟩, hfst⟩

theorem mem_ringAdd (ring : List String) (k id : String) :
    id ∈ ringAdd ring k ↔ id = k ∨ id ∈ ring := by
  unfold ringAdd
  by_cases h : ring.contains k
  · have hk : k ∈ ring := List.mem_of_elem_eq_true h
    rw [if_pos h]
    constructor
    · exact fun hm => Or.inr hm
    · rintro (rfl | hm)
      · exact hk
      · exact hm
  · rw [if_neg h]
    simp [List.mem_append]
    tauto

theorem mem_ringRemove (ring : List String) (k id : String) :
    id ∈ ringRemove ring k ↔ id ≠ k ∧ id ∈ ring := by
  simp [ringRemove, List.mem_filter, bne_iff_ne]
  tauto

theorem fanoutErrs_cons_err {R : Type} {call : String → Except String R}
    {n : RNode} {e : String} (rest : List RNode) (msgPre : String)
    (hc : call n.Addr = .error e) :
    fanoutErrs (n :: rest) call msgPre =
      (msgPre ++ n.ID ++ ": " ++ e) :: fanoutErrs rest call msgPre := by
  simp [fanoutErrs, hc]

theorem fanoutErrs_cons_ok {R : Type} {call : String → Except String R}
    {n : RNode} {resp : R} (rest : List RNode) (msgPre : String)
    (hc : call n.Addr = .ok resp) :
    fanoutErrs (n :: rest) call msgPre = fanoutErrs rest call msgPre := by
  simp [fanoutErrs, hc]

theorem fanoutResps_cons_err {R : Type} {call : String → Except String R}
    {n : RNode} {e : String} (rest : List RNode)
    (hc : call n.Addr = .error e) :
    fanoutResps (n :: rest) call = fanoutResps rest call := by
  simp [fanoutResps, List.filterMap_cons, hc, Except.toOption]

theorem fanoutResps_cons_ok {R : Type} {call : String → Except String R}
    {n : RNode} {resp : R} (rest : List RNode)
    (hc : call n.Addr = .ok resp) :
    fanoutResps (n :: rest) call = resp :: fanoutResps rest call := by
  simp [fanoutResps, List.filterMap_cons, hc, Except.toOption]

theorem fanoutLoop_spec {R : Type} (clients : List (String × String))
    (call : String → Except String R) (msgPre : String) (ns : List RNode)
    (hcl : ∀ n ∈ ns, assocGet clients n.ID = some n.Addr) :
    ∀ fr fe called,
      fanoutLoop clients call msgPre ns fr fe called =
        (fr <|> (fanoutResps ns call).head?,
         fe <|> (fanoutErrs ns call msgPre).head?,
         called ++ ns.map (fun n => n.ID)) := by
  induction ns with
  | nil =>
    intro fr fe called
    simp [fanoutLoop, fanoutResps, fanoutErrs]
  | cons n rest ih =>
    intro fr fe called
    have hn := hcl n (List.mem_cons_self _ _)
    have hrest : ∀ m ∈ rest, assocGet clients m.ID = some m.Addr :=
      fun m hm => hcl m (List.mem_cons_of_mem _ hm)
    rcases hc : call n.Addr with e | resp
    · rw [show fanoutLoop clients call msgPre (n :: rest) fr fe called =
          fanoutLoop clients call msgPre rest fr
            (fe <|> some (msgPre ++ n.ID ++ ": " ++ e)) (called ++ [n.ID]) by
        simp [fanoutLoop, hn, hc]]
      rw [ih hrest]
      rw [fanoutErrs_cons_err rest msgPre hc, fanoutResps_cons_err rest hc]
      simp only [List.head?_cons]
      cases fe <;> simp
    · rw [show fanoutLoop clients call msgPre (n :: rest) fr fe called =
          fanoutLoop clients call msgPre rest (fr <|> some resp) fe
            (called ++ [n.ID]) by
        simp [fanoutLoop, hn, hc]]
      rw [ih hrest]
      rw [fanoutErrs_cons_ok rest msgPre hc, fanoutResps_cons_ok rest hc]
      simp only [List.head?_cons]
      cases fr <;> simp

theorem fanoutResps_length {R : Type} (ns : List RNode)
    (call : String → Except String R) (msgPre : String)
    (h : fanoutErrs ns call msgPre = []) :
    (fanoutResps ns call).length = ns.length := by
  induction ns with
  | nil => simp [fanoutResps]
  | cons n rest ih =>
    rcases hc : call n.Addr with e | resp
    · exfalso
      rw [fanoutErrs_cons_err rest msgPre hc] at h
      cases h
    · have herr : fanoutErrs rest call msgPre = [] := by
        rw [fanoutErrs_cons_ok rest msgPre hc] at h
        exact h
      rw [fanoutResps_cons_ok rest hc]
      simp [ih herr]

/-- C8: after any sequence of AddNode/RemoveNode operations from a fresh
router, the ring member set, the node-map key set, and the client-map key
set coincide. -/
theorem C8_router_membership (ops : List ROp) (id : String) :
    (id ∈ (applyROps NewRouter ops).ring ↔
      id ∈ (applyROps NewRouter ops).nodes.map Prod.fst) ∧
    (id ∈ (applyROps NewRouter ops).nodes.map Prod.fst ↔
      id ∈ (applyROps NewRouter ops).nodeClients.map Prod.fst) := by
  suffices h : ∀ r : RouterState,
      (∀ j, (j ∈ r.ring ↔ j ∈ r.nodes.map Prod.fst) ∧
            (j ∈ r.nodes.map Prod.fst ↔ j ∈ r.nodeClients.map Prod.fst)) →
      ∀ j, (j ∈ (applyROps r ops).ring ↔
              j ∈ (applyROps r ops).nodes.map Prod.fst) ∧
           (j ∈ (applyROps r ops).nodes.map Prod.fst ↔
              j ∈ (applyROps r ops).nodeClients.map Prod.fst) by
    exact h NewRouter (by simp [NewRouter]) id
  induction ops with
  | nil => intro r hr; exact hr
  | cons op rest ih =>
    intro r hr j
    have hstep : ∀ i, (i ∈ (applyROp r op).ring ↔
        i ∈ (applyROp r op).nodes.map Prod.fst) ∧
        (i ∈ (applyROp r op).nodes.map Prod.fst ↔
          i ∈ (applyROp r op).nodeClients.map Prod.fst) := by
      intro i
      obtain ⟨h1, h2⟩ := hr i
      cases op with
      | add n =>
        simp only [applyROp, AddNode, keys_assocSet, mem_ringAdd]
        tauto
      | remove k =>
        simp only [applyROp, RemoveNode, keys_assocRemove, mem_ringRemove]
        tauto
    have : applyROps r (op :: rest) = applyROps (applyROp r op) rest := by
      simp [applyROps]
    rw [this]
    exact ih (applyROp r op) hstep j

/-- C6: CreateTable/DeleteTable fan-out — with empty membership an error is
returned with no call made; with non-empty membership every member's client
is called, the first error (in iteration order) is returned if any call or
client lookup failed, and otherwise the first successful response is
returned. -/
theorem C6_lifecycle_fanout {R S : Type} (nodes : List RNode)
    (clients : List (String × String))
    (callC : String → Except String R) (callD : String → Except String S)
    (hcl : ∀ n ∈ nodes, assocGet clients n.ID = some n.Addr) :
    (nodes = [] →
      routerCreateTable nodes clients callC =
        (.error "no nodes in the ring to create table", []) ∧
      routerDeleteTable nodes clients callD =
        (.error "no nodes in the ring to delete table", [])) ∧
    (nodes ≠ [] →
      (routerCreateTable nodes clients callC).2 = nodes.map (fun n => n.ID) ∧
      (routerDeleteTable nodes clients callD).2 = nodes.map (fun n => n.ID) ∧
      (∀ e rest,
        fanoutErrs nodes callC "failed to create table on node " = e :: rest →
        (routerCreateTable nodes clients callC).1 = .error e) ∧
      (fanoutErrs nodes callC "failed to create table on node " = [] →
        ∃ rsp rest, fanoutResps nodes callC = rsp :: rest ∧
          (routerCreateTable nodes clients callC).1 = .ok rsp) ∧
      (∀ e rest,
        fanoutErrs nodes callD "failed to delete table on node " = e :: rest →
        (routerDeleteTable nodes clients callD).1 = .error e) ∧
      (fanoutErrs nodes callD "failed to delete table on node " = [] →
        ∃ rsp rest, fanoutResps nodes callD = rsp :: rest ∧
          (routerDeleteTable nodes clients callD).1 = .ok rsp)) := by
  constructor
  · intro he
    subst he
    constructor <;> rfl
  · intro hne
    have hC := fanoutLoop_spec clients callC "failed to create table on node "
      nodes hcl none none []
    have hD := fanoutLoop_spec clients callD "failed to delete table on node "
      nodes hcl none none []
    have hCt : routerCreateTable nodes clients callC =
        (match (fanoutErrs nodes callC "failed to create table on node ").head? with
         | some e => (.error e, nodes.map (fun n => n.ID))
         | none =>
           match (fanoutResps nodes callC).head? with
           | some rsp => (.ok rsp, nodes.map (fun n => n.ID))
           | none => (.error "no successful responses from nodes for CreateTable",
               nodes.map (fun n => n.ID))) := by
      unfold routerCreateTable tableLifecycleFanout
      rw [if_neg hne, hC]
      simp
    have hDt : routerDeleteTable nodes clients callD =
        (match (fanoutErrs nodes callD "failed to delete table on node ").head? with
         | some e => (.error e, nodes.map (fun n => n.ID))
         | none =>
           match (fanoutResps nodes callD).head? with
           | some rsp => (.ok rsp, nodes.map (fun n => n.ID))
           | none => (.error "no successful responses from nodes for DeleteTable",
               nodes.map (fun n => n.ID))) := by
      unfold routerDeleteTable tableLifecycleFanout
      rw [if_neg hne, hD]
      simp
    refine ⟨?_, ?_, ?_, ?_, ?_, ?_⟩
    · rw [hCt]
      rcases (fanoutErrs nodes callC "failed to create table on node ").head? with _ | e
      · rcases (fanoutResps nodes callC).head? with _ | rsp <;> rfl
      · rfl
    · rw [hDt]
      rcases (fanoutErrs nodes callD "failed to delete table on node ").head? with _ | e
      · rcases (fanoutResps nodes callD).head? with _ | rsp <;> rfl
      · rfl
    · intro e rest herr
      rw [hCt, herr]
      rfl
    · intro herr
      have hlen := fanoutResps_length nodes callC
        "failed to create table on node " herr
      rcases hres : fanoutResps nodes callC with _ | ⟨rsp, rrest⟩
      · exfalso
        rw [hres] at hlen
        have : nodes.length ≠ 0 := by
          intro h0
          exact hne (List.length_eq_zero.mp h0)
        simp at hlen
        exact this hlen.symm
      · refine ⟨rsp, rrest, rfl, ?_⟩
        rw [hCt, herr, hres]
        rfl
    · intro e rest herr
      rw [hDt, herr]
      rfl
    · intro herr
      have hlen := fanoutResps_length nodes callD
        "failed to delete table on node " herr
      rcases hres : fanoutResps nodes callD with _ | ⟨rsp, rrest⟩
      · exfalso
        rw [hres] at hlen
        have : nodes.length ≠ 0 := by
          intro h0
          exact hne (List.length_eq_zero.mp h0)
        simp at hlen
        exact this hlen.symm
      · refine ⟨rsp, rrest, rfl, ?_⟩
        rw [hDt, herr, hres]
        rfl

/-- C6 (witness): two nodes where the second node's CreateTable call fails:
both clients are called, the returned result is that error; DeleteTable on
the same membership with both calls succeeding returns the first response. -/
theorem C6_lifecycle_fanout_witness :
    routerCreateTable [⟨"n1", "a1"⟩, ⟨"n2", "a2"⟩]
        [("n1", "a1"), ("n2", "a2")]
        (fun a => if a = "a2" then .error "boom" else .ok "created") =
      (.error "failed to create table on node n2: boom", ["n1", "n2"]) ∧
    routerDeleteTable [⟨"n1", "a1"⟩, ⟨"n2", "a2"⟩]
        [("n1", "a1"), ("n2", "a2")]
        (fun a => .ok ("deleted at " ++ a)) =
      (.ok "deleted at a1", ["n1", "n2"]) := by
  have h := (C6_lifecycle_fanout [⟨"n1", "a1"⟩, ⟨"n2", "a2"⟩]
      [("n1", "a1"), ("n2", "a2")]
      (fun a => if a = "a2" then .error "boom" else .ok ("created" : String))
      (fun a => .ok ("deleted at " ++ a))
      (by intro n hn; fin_cases hn <;> rfl)).2 (by simp)
  obtain ⟨hc2, hd2, hcerr, _, _, hdok⟩ := h
  constructor
  · have he := hcerr "failed to create table on node n2: boom" [] (by rfl)
    have : (routerCreateTable [⟨"n1", "a1"⟩, ⟨"n2", "a2"⟩]
        [("n1", "a1"), ("n2", "a2")]
        (fun a => if a = "a2" then .error "boom" else .ok ("created" : String))).2 =
        ["n1", "n2"] := by simpa using hc2
    rcases hr : routerCreateTable [⟨"n1", "a1"⟩, ⟨"n2", "a2"⟩]
        [("n1", "a1"), ("n2", "a2")]
        (fun a => if a = "a2" then .error "boom" else .ok ("created" : String)) with ⟨res, called⟩
    rw [hr] at he this
    simp at he this
    rw [he, this]
  · obtain ⟨rsp, rest, hres, hok⟩ := hdok (by rfl)
    have hrsp : rsp = "deleted at a1" := by
      have : fanoutResps [⟨"n1", "a1"⟩, ⟨"n2", "a2"⟩]
          (fun a => .ok ("deleted at " ++ a)) =
          ["deleted at a1", "deleted at a2"] := by rfl
      rw [this] at hres
      exact (List.cons.injEq _ _ _ _ ▸ hres).1.symm
    have : (routerDeleteTable [⟨"n1", "a1"⟩, ⟨"n2", "a2"⟩]
        [("n1", "a1"), ("n2", "a2")]
        (fun a => .ok ("deleted at " ++ a) : String → Except String String)).2 =
        ["n1", "n2"] := by simpa using hd2
    rcases hr : routerDeleteTable [⟨"n1", "a1"⟩, ⟨"n2", "a2"⟩]
        [("n1", "a1"), ("n2", "a2")]
        (fun a => .ok ("deleted at " ++ a) : String → Except String String) with ⟨res, called⟩
    rw [hr] at hok this
    simp at this
    rw [hrsp] at hok
    simp at hok
    rw [hok, this]

theorem findSourceNode_self (selfID : String) (activeNodes : List RNode) :
    findSourceNode (.ok selfID) selfID activeNodes = ⟨"", ""⟩ := by
  unfold findSourceNode
  have h : activeNodes.find? (fun n =>
      n.ID != selfID &&
        (match (Except.ok selfID : Except String String) with
         | .ok sourceNodeID => sourceNodeID == n.ID
         | .error _ => false)) = none := by
    rw [List.find?_eq_none]
    intro n _
    by_cases h : n.ID = selfID
    · simp [h]
    · simp [h]
      intro heq
      exact absurd heq.symm h
  rw [h]

theorem getD_set_self (l : List Item) (i : Nat) (x : Item) (h : i < l.length) :
    (l.set i x).getD i [] = x := by
  induction l generalizing i with
  | nil => cases h
  | cons a rest ih =>
    cases i with
    | zero => rfl
    | succ j =>
      have hj : j < rest.length := by simpa using h
      simpa [List.set, List.getD] using by
        have := ih j hj
        simpa [List.getD] using this

theorem getD_set_other (l : List Item) (i j : Nat) (x : Item) (h : j ≠ i) :
    (l.set i x).getD j [] = l.getD j [] := by
  induction l generalizing i j with
  | nil => rfl
  | cons a rest ih =>
    cases i with
    | zero =>
      cases j with
      | zero => exact absurd rfl h
      | succ j2 => rfl
    | succ i2 =>
      cases j with
      | zero => rfl
      | succ j2 =>
        have hj : j2 ≠ i2 := fun he => h (by rw [he])
        simpa [List.set, List.getD] using by
          have := ih i2 j2 hj
          simpa [List.getD] using this

/-- C3: the bootstrap synchronization never pulls anything. When this node
owns table `T` (`aConsistent.Get(tableName)` returns this node's id), the
peer-selection loop re-queries the *same* ring, so the owner it compares
against each candidate is this node itself and never a different peer; no
source node is ever selected and the local engine is left unchanged — in
the concrete two-node instance, the peer holding an item of `T` is never
scanned and the new node keeps zero items. -/
theorem C3_bootstrap_pulls_nothing :
    (∀ (e : Engine) (selfID tableName : String) (activeNodes : List RNode)
        (peerScan : String → Option Item → Except String ScanPage) (fuel : Nat),
      syncTable e selfID tableName (.ok selfID) activeNodes peerScan fuel = e) ∧
    syncTable ⟨[("T", ⟨"T", [⟨"H", "HASH"⟩], [⟨"H", "S"⟩]⟩)], [("T", [])]⟩
        "n2" "T" (.ok "n2") [⟨"n1", "a1"⟩, ⟨"n2", "a2"⟩]
        (fun _ _ => .ok ⟨[[("H", avS "k1")]], none⟩) 1 =
      ⟨[("T", ⟨"T", [⟨"H", "HASH"⟩], [⟨"H", "S"⟩]⟩)], [("T", [])]⟩ := by
  constructor
  · intro e selfID tableName activeNodes peerScan fuel
    simp only [syncTable, if_pos rfl, findSourceNode_self]
    rfl
  · rfl

/-- C4 (counterexample): `expression.Update` makes no copy — it mutates
the caller's map through the reference it was given and returns that same
reference. On the heap holding the single caller map `{A: S"x"}`, after
`SET A = :v` (`:v = S"y"`), the returned reference is the caller's, and
the map it denotes is `{A: S"y"}`, not the original `{A: S"x"}`: the
caller's mapping is not left unchanged. -/
theorem C4_counterexample :
    UpdateGo intFloatModel [[("A", avS "x")]] 0 "SET A = :v" [(":v", avS "y")] =
      .ok ([[("A", avS "y")]], 0) ∧
    ([("A", avS "y")] : Item) ≠ [("A", avS "x")] := by
  refine ⟨rfl, ?_⟩
  intro h
  simp [avS] at h

/-- C4 (amended): the interpreter applies the clauses left to right over
the caller's item mapping itself, in place: on success the returned
reference is the caller's reference, the caller's map afterwards holds the
clause-fold result (so caller's view and returned item coincide), and no
other heap cell changes. -/
theorem C4_update_in_place {α : Type} (fm : FloatModel α) (heap : List Item)
    (ref : Nat) (expr : String) (eav : Item) (final : Item)
    (href : ref < heap.length)
    (hrun : updateRun fm (heap.getD ref []) expr eav = .ok final) :
    UpdateGo fm heap ref expr eav = .ok (heap.set ref final, ref) ∧
    (heap.set ref final).getD ref [] = final ∧
    (∀ j, j ≠ ref → (heap.set ref final).getD j [] = heap.getD j []) ∧
    updLoop fm eav (heap.getD ref []) (splitUpdateExpression expr) = .ok final := by
  refine ⟨?_, getD_set_self heap ref final href,
    fun j hj => getD_set_other heap ref j final hj, hrun⟩
  unfold UpdateGo
  rw [hrun]

/-- C4 (witness): the amended theorem at `REMOVE A` over the caller map
`{A: N"1"}`. -/
theorem C4_update_in_place_witness :
    UpdateGo intFloatModel [[("A", avN "1")]] 0 "REMOVE A" [] =
      .ok ([([] : Item)], 0) := by
  exact (C4_update_in_place intFloatModel [[("A", avN "1")]] 0 "REMOVE A" [] []
    (by decide) (by rfl)).1

/-- C7 (counterexample): on the item `{A: N"1"}` with clause `ADD A :v`
and `:v` resolving to the S value `"x"`, the attribute is present, is of
type N, and the placeholder resolves — the claim then requires the ADD to
succeed with the numeric sum — but the interpreter dereferences the nil
`addValue.N` of the non-numeric operand and panics. (The concrete float
model agrees with `strconv.ParseFloat` on the input `"1"`.) -/
theorem C7_counterexample :
    lookupAttr [("A", avN "1")] "A" = some (avN "1") ∧
    (avN "1").N = some "1" ∧
    lookupAttr [(":v", avS "x")] ":v" = some (avS "x") ∧
    updateRun intFloatModel [("A", avN "1")] "ADD A :v" [(":v", avS "x")] =
      .panic "nil pointer dereference: addValue.N" := by
  exact ⟨rfl, rfl, rfl, rfl⟩

/-- C7 (amended): for an `ADD name ph` clause with a placeholder operand,
the update fails with an invalid-expression error when the placeholder is
unresolved, the named attribute is absent or not an N value, or either
numeric string fails to parse; it panics on a nil dereference when the
resolved operand is not an N value; and otherwise — and only then — it
replaces the attribute with the re-formatted float sum of the two parsed
numbers. -/
theorem C7_add_semantics {α : Type} (fm : FloatModel α) (item eav : Item)
    (expr name ph : String)
    (hsplit : splitUpdateExpression expr = [["ADD", name, ph]])
    (hph : strHasPre ":" ph = true) :
    (lookupAttr eav ph = none →
      updateRun fm item expr eav =
        .err ("expression attribute value " ++ ph ++ " not found")) ∧
    (∀ v, lookupAttr eav ph = some v →
      (lookupAttr item name = none →
        updateRun fm item expr eav =
          .err ("attribute " ++ name ++
            " is not a number or does not exist for ADD operation")) ∧
      (∀ ex, lookupAttr item name = some ex → ex.N = none →
        updateRun fm item expr eav =
          .err ("attribute " ++ name ++
            " is not a number or does not exist for ADD operation")) ∧
      (∀ ex exN, lookupAttr item name = some ex → ex.N = some exN →
        (∀ e, fm.parseFloat exN = .error e →
          updateRun fm item expr eav =
            .err ("failed to parse existing number for ADD: " ++ e)) ∧
        (∀ exF, fm.parseFloat exN = .ok exF →
          (v.N = none →
            updateRun fm item expr eav =
              .panic "nil pointer dereference: addValue.N") ∧
          (∀ addN, v.N = some addN →
            (∀ e, fm.parseFloat addN = .error e →
              updateRun fm item expr eav =
                .err ("failed to parse add number for ADD: " ++ e)) ∧
            (∀ addF, fm.parseFloat addN = .ok addF →
              updateRun fm item expr eav =
                .ok (setAttr item name
                  (avN (fm.formatFloat (fm.add exF addF))))))))) := by
  have hone : ∀ res : GoResult Item,
      updClause fm eav item ["ADD", name, ph] = res →
      updateRun fm item expr eav = res := by
    intro res hres
    rw [updateRun, hsplit]
    cases res with
    | ok i => simp [updLoop, hres]
    | err e => simp [updLoop, hres]
    | panic e => simp [updLoop, hres]
  have hstep : updClause fm eav item ["ADD", name, ph] =
      (match lookupAttr eav ph with
       | none => .err ("expression attribute value " ++ ph ++ " not found")
       | some addValue =>
         match lookupAttr item name with
         | none =>
           .err ("attribute " ++ name ++
             " is not a number or does not exist for ADD operation")
         | some existingValue =>
           match existingValue.N with
           | none =>
             .err ("attribute " ++ name ++
               " is not a number or does not exist for ADD operation")
           | some exN =>
             match fm.parseFloat exN with
             | .error e => .err ("failed to parse existing number for ADD: " ++ e)
             | .ok existingNum =>
               match addValue.N with
               | none => .panic "nil pointer dereference: addValue.N"
               | some addN =>
                 match fm.parseFloat addN with
                 | .error e => .err ("failed to parse add number for ADD: " ++ e)
                 | .ok addNum =>
                   .ok (setAttr item name
                     (avN (fm.formatFloat (fm.add existingNum addNum))))) := by
    simp only [updClause]
    simp only [show goToUpper "ADD" = "ADD" from rfl,
      show List.drop 2 ["ADD", name, ph] = [ph] from rfl,
      show goJoinSpace [ph] = ph from rfl,
      show (["ADD", name, ph].getD 1 "") = name from rfl]
    rw [if_neg (by decide), if_neg (by decide)]
    first
      | rw [if_pos (show ("ADD" : String) = "ADD" from rfl)]
      | rw [if_pos (show True from trivial)]
    rw [if_neg (by simp), if_pos hph]
    rcases lookupAttr eav ph with _ | v
    · rfl
    · rfl
  refine ⟨?_, ?_⟩
  · intro hnone
    apply hone
    rw [hstep]
    simp only [hnone]
  · intro v hv
    refine ⟨?_, ?_, ?_⟩
    · intro hmiss
      apply hone
      rw [hstep]
      simp only [hv, hmiss]
    · intro ex hex hexN
      apply hone
      rw [hstep]
      simp only [hv, hex, hexN]
    · intro ex exN hex hexN
      refine ⟨?_, ?_⟩
      · intro e hpe
        apply hone
        rw [hstep]
        simp only [hv, hex, hexN, hpe]
      · intro exF hpf
        refine ⟨?_, ?_⟩
        · intro hvn
          apply hone
          rw [hstep]
          simp only [hv, hex, hexN, hpf, hvn]
        · intro addN hvn
          refine ⟨?_, ?_⟩
          · intro e hpe
            apply hone
            rw [hstep]
            simp only [hv, hex, hexN, hpf, hvn, hpe]
          · intro addF hpaf
            apply hone
            rw [hstep]
            simp only [hv, hex, hexN, hpf, hvn, hpaf]

/-- C7 (witness): the amended theorem at the end-to-end ADD scenario: item
`{Age: N"30"}`, clause `ADD Age :i` with `:i = N"5"` yields
`{Age: N"35"}` under the integer instantiation of the float primitives
(which agrees with IEEE-754 double arithmetic on these inputs). -/
theorem C7_add_semantics_witness :
    updateRun intFloatModel [("Age", avN "30")] "ADD Age :i" [(":i", avN "5")] =
      .ok [("Age", avN "35")] := by
  have h := (((C7_add_semantics intFloatModel [("Age", avN "30")]
      [(":i", avN "5")] "ADD Age :i" "Age" ":i" (by rfl) (by rfl)).2
      (avN "5") rfl).2.2 (avN "30") "30" rfl rfl).2 30 rfl
  have h2 := (h.2 "5" rfl).2 5 rfl
  exact h2

/-- C5 (witness): on the table `(H:S HASH)`, the key mapping `{X: "1"}` is
rejected while the valid mapping `{H: "1"}` over an empty bucket yields the
empty-result sentinel. -/
theorem C5_get_validation_witness :
    (∃ msg, getItem ⟨[("T", ⟨"T", [⟨"H", "HASH"⟩], []⟩)], [("T", [])]⟩
        "T" [("X", avS "1")] = .error msg) ∧
    getItem ⟨[("T", ⟨"T", [⟨"H", "HASH"⟩], []⟩)], [("T", [])]⟩
        "T" [("H", avS "1")] = .ok none := by
  constructor
  · exact (C5_get_validation ⟨[("T", ⟨"T", [⟨"H", "HASH"⟩], []⟩)], [("T", [])]⟩
      "T" ⟨"T", [⟨"H", "HASH"⟩], []⟩ [("X", avS "1")] rfl (by decide)).1
      (by decide)
  · exact (C5_get_validation ⟨[("T", ⟨"T", [⟨"H", "HASH"⟩], []⟩)], [("T", [])]⟩
      "T" ⟨"T", [⟨"H", "HASH"⟩], []⟩ [("H", avS "1")] rfl (by decide)).2
      (by decide) [] "1" rfl rfl rfl


/-- C1 (amended): for a table whose schema names a HASH attribute (alone or
with a RANGE attribute) of declared type S or N, and a Query
`"<hashName> = <placeholder>"` whose placeholder resolves to a well-formed
value `v` of that type with non-empty canonical form, Query returns exactly
the stored items whose hash-key attribute equals `v` — none with merely a
prefix-related hash — and for composite-key tables in ascending canonical
range-key order. -/
theorem C1_query_prefix_amended
    (name hn rn ph kce t : String) (ads : List AttributeDefinition)
    (ksch : List KeySchemaElement) (b : Bucket) (eav : Item)
    (v : AttributeValue) (ch : String)
    (hsch : ksch = [⟨hn, "HASH"⟩] ∨
      (ksch = [⟨hn, "HASH"⟩, ⟨rn, "RANGE"⟩] ∧ hn ≠ rn))
    (hwf : WFBucket ⟨name, ksch, ads⟩ b)
    (hkce : goSplitSpace kce = [hn, "=", ph])
    (hads : ads.find? (fun ad => ad.AttributeName == hn) = some ⟨hn, t⟩)
    (heav : lookupAttr eav ph = some v)
    (hvt : GetAttributeValueType v = t)
    (hts : t = "S" ∨ t = "N")
    (hvwf : wfAV v)
    (hcanon : keyCanonString v = .ok ch)
    (hch : ch ≠ "") :
    ∃ res, queryTable ⟨name, ksch, ads⟩ b kce eav = .ok res ∧
      FilterRel (fun kv => lookupAttr kv.2 hn = some v) b res ∧
      (ksch = [⟨hn, "HASH"⟩, ⟨rn, "RANGE"⟩] →
        List.Pairwise (fun a c => strLt a c = true)
          (res.map (rangeCanonOf rn))) := by
  have hvtSN : GetAttributeValueType v = "S" ∨ GetAttributeValueType v = "N" :=
    hts.imp (fun h => hvt.trans h) (fun h => hvt.trans h)
  have hcmpv : compareAttributeValues v v = true :=
    (compare_iff_eq_of_wf v v hvwf hvwf hvtSN).mpr rfl
  rcases hsch with rfl | ⟨rfl, hne⟩
  · -- hash-only schema
    have hfhk : findHashKeyDef ⟨name, [⟨hn, "HASH"⟩], ads⟩ = some ⟨hn, t⟩ := by
      simp [findHashKeyDef, hads]
    have hval : validateQueryRequest ⟨name, [⟨hn, "HASH"⟩], ads⟩ kce eav = .ok () := by
      simp [validateQueryRequest, hkce, hfhk, heav, hvt]
    have hseek : generateKeyString ⟨name, [⟨hn, "HASH"⟩], ads⟩ [(hn, v)] = .ok ch := by
      simp [generateKeyString, genKeyLoop, lookupAttr, hcanon, hch]
    refine ⟨((b.dropWhile fun kv => strLt kv.1 ch).takeWhile fun kv =>
        strHasPre ch kv.1).filterMap fun kv =>
          match lookupAttr kv.2 hn with
          | some w => if compareAttributeValues w v = true then some kv.2 else none
          | none => none, ?_, ?_, ?_⟩
    · simp only [queryTable, hval]
      simp [hkce, heav, hseek]
    · rw [seekScan_eq_filter ch b hwf.1, List.filterMap_filter]
      apply FilterRel_of_pointwise
      intro kv hkv
      obtain ⟨hkey, hput, hwfvs⟩ := hwf.2 kv hkv
      constructor
      · intro it hit
        split at hit
        · split at hit
          · split at hit
            · exact (Option.some.inj hit).symm
            · cases hit
          · cases hit
        · cases hit
      · constructor
        · intro hsome
          split at hsome
          · split at hsome
            next w heq =>
              split at hsome
              next hcmp =>
                have hwwf : wfAV w := hwfvs (hn, w) (lookupAttr_mem kv.2 hn w heq)
                have hwv : w = v :=
                  (compare_iff_eq_of_wf w v hwwf hvwf hvtSN).mp hcmp
                rw [heq, hwv]
              next hcmp => simp at hsome
            next heq => simp at hsome
          · simp at hsome
        · intro hP
          obtain ⟨w, hlw, hcw, hkne⟩ := genKey_single_shape name ads hn kv.2 kv.1 hkey
          have hwv : w = v := by
            rw [hP] at hlw
            exact (Option.some.inj hlw).symm
          subst hwv
          have hkch : kv.1 = ch := by
            rw [hcanon] at hcw
            exact (Except.ok.inj hcw).symm
          rw [if_pos (by rw [hkch]; exact strHasPre_self ch)]
          rw [hP]
          simp [hcmpv]
    · intro hcon
      exfalso
      have hlen : ([⟨hn, "HASH"⟩] : List KeySchemaElement).length =
          ([⟨hn, "HASH"⟩, ⟨rn, "RANGE"⟩] : List KeySchemaElement).length := by
        rw [hcon]
      simp at hlen
  · -- composite schema
    have hfhk : findHashKeyDef ⟨name, [⟨hn, "HASH"⟩, ⟨rn, "RANGE"⟩], ads⟩ =
        some ⟨hn, t⟩ := by
      simp [findHashKeyDef, hads]
    have hval : validateQueryRequest ⟨name, [⟨hn, "HASH"⟩, ⟨rn, "RANGE"⟩], ads⟩
        kce eav = .ok () := by
      simp [validateQueryRequest, hkce, hfhk, heav, hvt]
    have hseek : generateKeyString ⟨name, [⟨hn, "HASH"⟩, ⟨rn, "RANGE"⟩], ads⟩
        [(hn, v)] = .ok ch := by
      simp [generateKeyString, genKeyLoop, lookupAttr, hcanon, hch, hne]
    refine ⟨((b.dropWhile fun kv => strLt kv.1 ch).takeWhile fun kv =>
        strHasPre ch kv.1).filterMap fun kv =>
          match lookupAttr kv.2 hn with
          | some w => if compareAttributeValues w v = true then some kv.2 else none
          | none => none, ?_, ?_, ?_⟩
    · simp only [queryTable, hval]
      simp [hkce, heav, hseek]
    · rw [seekScan_eq_filter ch b hwf.1, List.filterMap_filter]
      apply FilterRel_of_pointwise
      intro kv hkv
      obtain ⟨hkey, hput, hwfvs⟩ := hwf.2 kv hkv
      constructor
      · intro it hit
        split at hit
        · split at hit
          · split at hit
            · exact (Option.some.inj hit).symm
            · cases hit
          · cases hit
        · cases hit
      · constructor
        · intro hsome
          split at hsome
          · split at hsome
            next w heq =>
              split at hsome
              next hcmp =>
                have hwwf : wfAV w := hwfvs (hn, w) (lookupAttr_mem kv.2 hn w heq)
                have hwv : w = v :=
                  (compare_iff_eq_of_wf w v hwwf hvwf hvtSN).mp hcmp
                rw [heq, hwv]
              next hcmp => simp at hsome
            next heq => simp at hsome
          · simp at hsome
        · intro hP
          obtain ⟨w, cw, hlw, hcw, hcwne, hsh⟩ :=
            genKey_composite_shape name ads hn rn kv.2 kv.1 hkey
          have hwv : w = v := by
            rw [hP] at hlw
            exact (Option.some.inj hlw).symm
          subst hwv
          have hcwch : cw = ch := by
            rw [hcanon] at hcw
            exact (Except.ok.inj hcw).symm
          subst hcwch
          rcases hsh with ⟨hk, _⟩ | ⟨_, hkd⟩
          · rw [if_pos (by rw [hk]; exact strHasPre_self cw)]
            rw [hP]
            simp [hcmpv]
          · rw [if_pos (strHasPre_of_data cw kv.1 _ hkd)]
            rw [hP]
            simp [hcmpv]
    · intro _
      rw [seekScan_eq_filter ch b hwf.1, List.filterMap_filter,
        List.pairwise_map]
      apply pairwise_filterMap_mem (fun x y => strLt x.1 y.1 = true) _ _ b hwf.1
      intro a ha c hc x y hR hFa hFc
      -- extract that a and c were kept: their hash attribute equals v
      have hextract : ∀ kv : String × Item, kv ∈ b → ∀ z,
          (if strHasPre ch kv.1 = true then
            match lookupAttr kv.2 hn with
            | some w => if compareAttributeValues w v = true then some kv.2 else none
            | none => none
          else none) = some z → z = kv.2 ∧ lookupAttr kv.2 hn = some v := by
        intro kv hkv z hz
        obtain ⟨hkey, hput, hwfvs⟩ := hwf.2 kv hkv
        split at hz
        · split at hz
          next w heq =>
            split at hz
            next hcmp =>
              have hwwf : wfAV w := hwfvs (hn, w) (lookupAttr_mem kv.2 hn w heq)
              have hwv : w = v :=
                (compare_iff_eq_of_wf w v hwwf hvwf hvtSN).mp hcmp
              exact ⟨(Option.some.inj hz).symm, by rw [heq, hwv]⟩
            next hcmp => cases hz
          next heq => cases hz
        · cases hz
      obtain ⟨hxa, hPa⟩ := hextract a ha x hFa
      obtain ⟨hyc, hPc⟩ := hextract c hc y hFc
      subst hxa
      subst hyc
      -- key shapes of the two kept entries
      have hshA := genKey_composite_shape name ads hn rn a.2 a.1 (hwf.2 a ha).1
      have hshC := genKey_composite_shape name ads hn rn c.2 c.1 (hwf.2 c hc).1
      obtain ⟨wa, cwa, hlwa, hcwa, _, hshA⟩ := hshA
      obtain ⟨wc, cwc, hlwc, hcwc, _, hshC⟩ := hshC
      have hwa : wa = v := by
        rw [hPa] at hlwa
        exact (Option.some.inj hlwa).symm
      have hwc : wc = v := by
        rw [hPc] at hlwc
        exact (Option.some.inj hlwc).symm
      subst hwa
      subst hwc
      have hcwa2 : cwa = ch := by
        rw [hcanon] at hcwa
        exact (Except.ok.inj hcwa).symm
      have hcwc2 : cwc = ch := by
        rw [hcanon] at hcwc
        exact (Except.ok.inj hcwc).symm
      subst hcwa2
      subst hcwc2
      rcases hshA with ⟨hka, hra⟩ | ⟨hrane, hkda⟩
      · rcases hshC with ⟨hkc, hrc⟩ | ⟨hrcne, hkdc⟩
        · exfalso
          rw [hka, hkc, strLt_irrefl] at hR
          cases hR
        · rw [hra]
          exact strLt_empty_left _ hrcne
      · rcases hshC with ⟨hkc, hrc⟩ | ⟨hrcne, hkdc⟩
        · exfalso
          unfold strLt at hR
          rw [hkda, hkc, keyLT_append_self] at hR
          cases hR
        · unfold strLt at hR ⊢
          rw [hkda, hkdc, keyLT_append_left] at hR
          simp [keyLT, lt_irrefl] at hR
          exact hR


/-- C1 (counterexample): on the hash-only table `(H:S HASH)` with an empty
bucket, the query `H = :v` with `:v` resolving to `S ""` — a value of the
declared hash attributeType — must, per the claim, return exactly the
stored items with hash `""` (there are none); the code instead fails while
generating the seek key, because the empty canonical hash string is
rejected. -/
theorem C1_counterexample :
    queryTable ⟨"T", [⟨"H", "HASH"⟩], [⟨"H", "S"⟩]⟩ [] "H = :v"
        [(":v", avS "")] =
      .error "failed to generate seek key string: hash key not found in item" ∧
    GetAttributeValueType (avS "") = "S" ∧
    queryTable ⟨"T", [⟨"H", "HASH"⟩], [⟨"H", "S"⟩]⟩ [] "H = :v"
        [(":v", avS "")] ≠ .ok [] := by
  refine ⟨rfl, rfl, ?_⟩
  intro h
  rw [show queryTable ⟨"T", [⟨"H", "HASH"⟩], [⟨"H", "S"⟩]⟩ [] "H = :v"
      [(":v", avS "")] =
      .error "failed to generate seek key string: hash key not found in item"
    from rfl] at h
  exact Except.noConfusion h

/-- C1 (witness): the amended Query theorem at the composite table
`(H:S HASH, R:N RANGE)` holding the single item `{H: "a", R: N"7"}`,
queried with `H = :v`, `:v = S "a"`. -/
theorem C1_query_prefix_witness :
    ∃ res,
      queryTable ⟨"T", [⟨"H", "HASH"⟩, ⟨"R", "RANGE"⟩], [⟨"H", "S"⟩, ⟨"R", "N"⟩]⟩
          [("a|7", [("H", avS "a"), ("R", avN "7")])] "H = :v"
          [(":v", avS "a")] = .ok res ∧
      FilterRel (fun kv => lookupAttr kv.2 "H" = some (avS "a"))
        [("a|7", [("H", avS "a"), ("R", avN "7")])] res ∧
      (([⟨"H", "HASH"⟩, ⟨"R", "RANGE"⟩] : List KeySchemaElement) =
          [⟨"H", "HASH"⟩, ⟨"R", "RANGE"⟩] →
        List.Pairwise (fun a c => strLt a c = true)
          (res.map (rangeCanonOf "R"))) := by
  refine C1_query_prefix_amended "T" "H" "R" ":v" "H = :v" "S"
    [⟨"H", "S"⟩, ⟨"R", "N"⟩] [⟨"H", "HASH"⟩, ⟨"R", "RANGE"⟩]
    [("a|7", [("H", avS "a"), ("R", avN "7")])] [(":v", avS "a")] (avS "a") "a"
    (Or.inr ⟨rfl, by decide⟩) ⟨by simp, ?_⟩ rfl rfl rfl rfl (Or.inl rfl)
    (Or.inl ⟨"a", rfl⟩) rfl (by decide)
  intro kv hkv
  simp only [List.mem_singleton] at hkv
  subst hkv
  refine ⟨rfl, rfl, ?_⟩
  intro a ha
  simp only [List.mem_cons, List.mem_singleton] at ha
  rcases ha with rfl | rfl | hf
  · exact Or.inl ⟨"a", rfl⟩
  · exact Or.inr (Or.inl ⟨"7", rfl⟩)
  · cases hf

end Zagreb
